import Mathlib

/-!
Shallow embedding of the go-epub document assembly engine (package `epub`):
the resource registries, the section tree, `addMedia`/`addSection`/`SetCover`
from `epub.go`, the table-of-contents builder from `toc.go`, and the
serialization pipeline (`WriteTo`, `writeMedia`, `writeSections`, `writeToc`,
`writeEpub`) from the write file.  Go maps are modelled as association lists
in insertion order (Go map iteration order is unspecified; every property
proved below is insensitive to that order).  Recursion that Go writes as
unbounded loops is modelled with explicit structural fuel so that every
definition reduces inside the kernel.
-/

namespace GoEpub

/-! ### Decimal rendering: `strconv.Itoa` and the `%04d` format verb -/

/-- The ASCII digit character for `n < 10` (Go emits bytes `'0'+d`). -/
def digitChar (n : Nat) : Char := Char.ofNat (48 + n)

/-- Fuel-driven digit expansion; with `fuel ≥ n` this is the usual
base-10 digit list of `n`, most significant first. -/
def natDigitsGo : Nat → Nat → List Char
  | 0, n => [digitChar n]
  | fuel + 1, n =>
    if n < 10 then [digitChar n]
    else natDigitsGo fuel (n / 10) ++ [digitChar (n % 10)]

/-- `strconv.Itoa` for a non-negative value. -/
def itoa (n : Nat) : String := String.mk (natDigitsGo n n)

/-- `fmt.Sprintf("%04d", n)`: zero-pad the decimal form to width 4. -/
def pad4 (n : Nat) : String :=
  String.mk (List.replicate (4 - (natDigitsGo n n).length) '0' ++ natDigitsGo n n)

/-! ### Go `path`/`filepath` helpers (slash-separated paths) -/

/-- `filepath.Base`: strip trailing separators, keep the last element;
empty input gives `"."`, an all-separator input gives `"/"`. -/
def goBase (p : String) : String :=
  if p == "" then "."
  else
    let cs := p.data.reverse.dropWhile (fun c => c = '/')
    if cs.isEmpty then "/"
    else String.mk ((cs.takeWhile (fun c => c ≠ '/')).reverse)

/-- Helper for `goExt`: scan the reversed character list; `acc` holds the
already-scanned suffix in source order. -/
def goExtAux : List Char → List Char → String
  | [], _ => ""
  | c :: rest, acc =>
    if c = '/' then ""
    else if c = '.' then String.mk ('.' :: acc)
    else goExtAux rest (c :: acc)

/-- `filepath.Ext`: the suffix from the final dot in the last element. -/
def goExt (p : String) : String := goExtAux p.data.reverse []

/-- `strings.ToLower` (ASCII; non-ASCII case folding is not relevant to any
filename used by the package). -/
def toLowerStr (s : String) : String := String.mk (s.data.map Char.toLower)

/-- Split a character list at `'/'` (for `io/fs.ValidPath`). -/
def splitSlash : List Char → List (List Char)
  | [] => [[]]
  | c :: rest =>
    match splitSlash rest with
    | [] => []
    | g :: gs => if c = '/' then [] :: g :: gs else (c :: g) :: gs

/-- `io/fs.ValidPath`: `"."` is valid, otherwise every slash-separated
element must be non-empty and distinct from `"."` and `".."`. -/
def validPath (name : String) : Bool :=
  if name == "." then true
  else if name == "" then false
  else (splitSlash name.data).all fun e =>
    !e.isEmpty && e ≠ ['.'] && e ≠ ['.', '.']

/-- Go `len` of a string counts UTF-8 bytes. -/
def utf8Len (s : String) : Nat := s.data.foldl (fun n c => n + c.utf8Size) 0

/-! ### `fixXMLId` (ASCII approximation of the involved Unicode classes) -/

/-- ASCII whitespace, standing in for `unicode.IsSpace`. -/
def isAsciiSpace (c : Char) : Bool :=
  let n := c.toNat
  n = 0x20 || n = 0x09 || n = 0x0A || n = 0x0B || n = 0x0C || n = 0x0D

/-- ASCII punctuation or symbol, standing in for
`unicode.IsPunct || unicode.IsSymbol`. -/
def isAsciiPunctSym (c : Char) : Bool :=
  let n := c.toNat
  (0x21 ≤ n && n ≤ 0x2F) || (0x3A ≤ n && n ≤ 0x40) ||
    (0x5B ≤ n && n ≤ 0x60) || (0x7B ≤ n && n ≤ 0x7E)

/-- `fixXMLId`: prepend `"id"` when the first rune is a digit, punctuation or
symbol, then drop whitespace and colons.  (Go panics on an empty id; the
writer only passes non-empty filenames, and the model returns the input.) -/
def fixXMLId (id : String) : String :=
  match id.data with
  | [] => id
  | c :: _ =>
    let prefixed := if c.isDigit || isAsciiPunctSym c then ['i', 'd'] else []
    String.mk (prefixed ++ id.data.filter fun r => !isAsciiSpace r && r ≠ ':')

/-! ### Small list utilities shared by the embedding -/

/-- Replace the element at index `i` (out-of-range indices leave the list
unchanged), mirroring in-place slice element assignment. -/
def updateAt {α : Type} : List α → Nat → (α → α) → List α
  | [], _, _ => []
  | a :: as, 0, f => f a :: as
  | a :: as, n + 1, f => a :: updateAt as n f

/-- Helper for `lastMatchIdx`: indices are counted from `i`. -/
def lastMatchIdxFrom {α : Type} (p : α → Bool) : List α → Nat → Option Nat
  | [], _ => none
  | a :: as, i =>
    match lastMatchIdxFrom p as (i + 1) with
    | some j => some j
    | none => if p a then some i else none

/-- Index of the last element satisfying the predicate, as Go's
`for i := range l { if p(l[i]) { idx = i } }` computes it. -/
def lastMatchIdx {α : Type} (l : List α) (p : α → Bool) : Option Nat :=
  lastMatchIdxFrom p l 0

/-! ### Constants from `epub.go` and the write file -/

def CSSFolderName : String := "css"
def FontFolderName : String := "fonts"
def ImageFolderName : String := "images"
def VideoFolderName : String := "videos"
def defaultCoverCSSFilename : String := "cover.css"
def defaultCoverXhtmlFilename : String := "cover.xhtml"
def coverImageProperties : String := "cover-image"
def mediaTypeXhtml : String := "application/xhtml+xml"
def mediaTypeNcx : String := "application/x-dtbncx+xml"
def xmlnsEpub : String := "http://www.idpf.org/2007/ops"
def tocNavFilename : String := "nav.xhtml"
def tocNavItemID : String := "nav"
def tocNavItemProperties : String := "nav"
def tocNcxFilename : String := "toc.ncx"
def tocNcxItemID : String := "ncx"

/-- `fmt.Sprintf(mediaFileFormat, n, ext)` for the per-category templates
`css%04d%s`, `font%04d%s`, `image%04d%s`, `video%04d%s`. -/
def mediaFormatName (category : String) (n : Nat) (ext : String) : String :=
  category ++ pad4 n ++ ext

/-- `fmt.Sprintf(sectionFileFormat, n)` for `section%04d.xhtml`. -/
def sectionFormatName (n : Nat) : String := "section" ++ pad4 n ++ ".xhtml"

/-! ### Data model

The `xhtml` wrapper stores a title, the body, an optional stylesheet link
and the optional `xmlns:epub` attribute — exactly the fields `epub.go` and
the writer mutate through `setTitle`, `setBody`, `setCSS`, `setXmlnsEpub`
and read through `Title()`. -/

structure Xhtml where
  title : String
  body : String
  css : Option String
  xmlns : Option String
deriving DecidableEq, Repr

/-- `newXhtml` followed by `setTitle`/`setXmlnsEpub`/`setCSS` as performed in
`addSection` (`setBody` wraps the body in newlines). -/
def mkSectionXhtml (body sectionTitle internalCSSPath : String) : Xhtml :=
  { title := sectionTitle
    body := "\n" ++ body ++ "\n"
    css := if internalCSSPath = "" then none else some internalCSSPath
    xmlns := some xmlnsEpub }

/-- A nested section.  In the Go source `epubSection` is one recursive type,
but `addSection` only ever attaches children to top-level sections (a parent
is looked up in `e.sections` alone), so reachable trees have depth ≤ 2 and
the embedding splits the type into the two levels that actually occur. -/
structure SubSection where
  filename : String
  xhtml : Xhtml
deriving DecidableEq, Repr

/-- A top-level section; `children = none` mirrors the Go `nil` pointer,
distinguished from an allocated empty slice. -/
structure Section where
  filename : String
  xhtml : Xhtml
  children : Option (List SubSection)
deriving DecidableEq, Repr

structure EpubCover where
  cssFilename : String
  cssTempFile : String
  imageFilename : String
  xhtmlFilename : String
deriving DecidableEq, Repr

/-- A Go `map[string]string` as an association list in insertion order.
`addMedia` checks for the key before inserting, so keys stay distinct. -/
abbrev MediaMap := List (String × String)

/-- `delete(m, k)`; on a duplicate-free list this is Go's map delete. -/
def eraseKey (m : MediaMap) (k : String) : MediaMap :=
  m.filter fun p => p.1 ≠ k

def mediaKeys (m : MediaMap) : List String := m.map (·.1)

structure Epub where
  cover : EpubCover
  css : MediaMap
  fonts : MediaMap
  images : MediaMap
  videos : MediaMap
  identifier : String
  lang : String
  desc : String
  ppd : String
  author : String
  title : String
  sections : List Section
deriving DecidableEq, Repr

/-- `NewEpub` (the generated UUID is irrelevant to every claim and is left
as a fixed placeholder). -/
def newEpub (title : String) : Epub :=
  { cover := ⟨"", "", "", ""⟩
    css := [], fonts := [], images := [], videos := []
    identifier := "urn:uuid:00000000-0000-0000-0000-000000000000"
    lang := "en", desc := "", ppd := "", author := ""
    title := title
    sections := [] }

/-- The error taxonomy of `epub.go` (`FilenameAlreadyUsedError`,
`ParentDoesNotExistError`, `FileRetrievalError`). -/
inductive EpubError where
  | filenameAlreadyUsed (filename : String)
  | parentDoesNotExist (filename : String)
  | fileRetrieval (source : String)
deriving DecidableEq, Repr

deriving instance DecidableEq for Except

/-! ### `addMedia` (epub.go) -/

/-- The filename `addMedia` derives when none is supplied: the source's
base name, unless that is too long, invalid or already taken, in which case
the per-category numbering template is used with the category's current
count + 1. -/
def genMediaName (source category : String) (mediaMap : MediaMap) : String :=
  if utf8Len (goBase source) > 255 || !validPath (goBase source) ||
      (List.lookup (goBase source) mediaMap).isSome then
    mediaFormatName category (mediaMap.length + 1) (toLowerStr (goExt source))
  else goBase source

/-- The internal filename an `addMedia` call will use: the explicit one, or
the derived/generated one when none is supplied. -/
def resolvedMediaName (source internalFilename category : String) (mediaMap : MediaMap) : String :=
  if internalFilename = "" then genMediaName source category mediaMap
  else internalFilename

/-- `addMedia`.  The grabber collaborator's verdict on the source is the
abstract boolean `checkOk` (network/disk retrieval is outside the model).
Returns the Go result value together with the registry after the call, so
that the error paths visibly leave the registry untouched. -/
def addMedia (checkOk : Bool) (source internalFilename category folderName : String)
    (mediaMap : MediaMap) : Except EpubError String × MediaMap :=
  if !checkOk then (.error (.fileRetrieval source), mediaMap)
  else if (List.lookup (resolvedMediaName source internalFilename category mediaMap) mediaMap).isSome then
    (.error (.filenameAlreadyUsed (resolvedMediaName source internalFilename category mediaMap)), mediaMap)
  else
    (.ok ("../" ++ folderName ++ "/" ++ resolvedMediaName source internalFilename category mediaMap),
      mediaMap ++ [(resolvedMediaName source internalFilename category mediaMap, source)])

def addCSS (e : Epub) (checkOk : Bool) (source internalFilename : String) :
    Except EpubError String × Epub :=
  let r := addMedia checkOk source internalFilename "css" CSSFolderName e.css
  (r.1, { e with css := r.2 })

def addFont (e : Epub) (checkOk : Bool) (source internalFilename : String) :
    Except EpubError String × Epub :=
  let r := addMedia checkOk source internalFilename "font" FontFolderName e.fonts
  (r.1, { e with fonts := r.2 })

def addImage (e : Epub) (checkOk : Bool) (source internalFilename : String) :
    Except EpubError String × Epub :=
  let r := addMedia checkOk source internalFilename "image" ImageFolderName e.images
  (r.1, { e with images := r.2 })

def addVideo (e : Epub) (checkOk : Bool) (source internalFilename : String) :
    Except EpubError String × Epub :=
  let r := addMedia checkOk source internalFilename "video" VideoFolderName e.videos
  (r.1, { e with videos := r.2 })

/-! ### `addSection` / `AddSubSection` (epub.go) -/

/-- Every filename in the tree: each top-level section followed by its
children, in order — the namespace `addSection`'s collision scan covers. -/
def allNames (secs : List Section) : List String :=
  secs.flatMap fun s => s.filename :: (s.children.getD []).map (·.filename)

/-- The collision scan of the explicit-filename branch (top-level names and
all child names). -/
def sectionNameTaken (secs : List Section) (fn : String) : Bool :=
  secs.any fun s =>
    s.filename == fn || (s.children.getD []).any fun c => c.filename == fn

/-- One pass of the filename-generation loop candidates: try
`section%04d.xhtml` for `index = i, i+1, ...` until the name is unused.
`fuel = |used| + 1` suffices, by pigeonhole on the injective name template. -/
def genSectionFilenameAux (used : List String) : Nat → Nat → String
  | 0, i => sectionFormatName i
  | fuel + 1, i =>
    let c := sectionFormatName i
    if c ∈ used then genSectionFilenameAux used fuel (i + 1) else c

/-- The auto-generation loop of `addSection` (index starts at 1). -/
def genSectionFilename (used : List String) : String :=
  genSectionFilenameAux used (used.length + 1) 1

/-- Append a subsection to the children of the section at index `i`,
allocating the child slice on first use. -/
def addChildAt : List Section → Nat → SubSection → List Section
  | [], _, _ => []
  | s :: ss, 0, c => { s with children := some ((s.children.getD []) ++ [c]) } :: ss
  | s :: ss, n + 1, c => s :: addChildAt ss n c

/-- The tail of `addSection` once the filename `fn` is settled: locate the
parent (the index Go's scan leaves behind is that of the *last* match),
fail when a non-empty parent is absent, and otherwise attach the new
section as a child or at top level. -/
def addSectionCore (e : Epub)
    (parentFilename body sectionTitle internalCSSPath fn : String) :
    Except EpubError String × Epub :=
  if parentFilename ≠ "" ∧
      lastMatchIdx e.sections (fun s => s.filename == parentFilename) = none then
    (.error (.parentDoesNotExist parentFilename), e)
  else
    match lastMatchIdx e.sections fun s => s.filename == parentFilename with
    | some i =>
      (.ok fn,
        { e with sections := addChildAt e.sections i ⟨fn, mkSectionXhtml body sectionTitle internalCSSPath⟩ })
    | none =>
      (.ok fn,
        { e with sections := e.sections ++ [⟨fn, mkSectionXhtml body sectionTitle internalCSSPath, none⟩] })

/-- `addSection` (the common body of `AddSection` and `AddSubSection`).
Returns the Go result together with the updated document. -/
def addSection (e : Epub)
    (parentFilename body sectionTitle internalFilename internalCSSPath : String) :
    Except EpubError String × Epub :=
  if internalFilename = "" then
    addSectionCore e parentFilename body sectionTitle internalCSSPath
      (genSectionFilename (allNames e.sections))
  else if sectionNameTaken e.sections internalFilename then
    (.error (.filenameAlreadyUsed internalFilename), e)
  else
    addSectionCore e parentFilename body sectionTitle internalCSSPath internalFilename

def addTopSection (e : Epub) (body sectionTitle internalFilename internalCSSPath : String) :
    Except EpubError String × Epub :=
  addSection e "" body sectionTitle internalFilename internalCSSPath

def addSubSection (e : Epub)
    (parentFilename body sectionTitle internalFilename internalCSSPath : String) :
    Except EpubError String × Epub :=
  addSection e parentFilename body sectionTitle internalFilename internalCSSPath

/-! ### `SetCover` (epub.go) -/

/-- Remove the first section carrying the given filename (the `for ... break`
loop of `SetCover`). -/
def removeFirstSection : List Section → String → List Section
  | [], _ => []
  | s :: ss, fn => if s.filename == fn then ss else s :: removeFirstSection ss fn

/-- The `dataurl.EncodeBytes(defaultCoverCSSContent)` source string.  Its
exact base64 payload is irrelevant: it only serves as a lookup key and
source locator.  A data URL is accepted by the grabber. -/
def defaultCoverCSSTempSource : String := "data:text/css;base64,DEFAULTCOVERCSS"

/-- `fmt.Sprintf(defaultCoverBody, path)`. -/
def coverBodyFor (path : String) : String :=
  "<img src=\"" ++ path ++ "\" alt=\"Cover Image\" />"

/-- Stage 1 of `SetCover`: when a cover already exists, remove its section,
its image registry entry and its CSS registry entry. -/
def setCoverRemoveOld (e : Epub) : Epub :=
  if e.cover.xhtmlFilename ≠ "" then
    { e with
      sections := removeFirstSection e.sections e.cover.xhtmlFilename
      images := eraseKey e.images e.cover.imageFilename
      css := eraseKey e.css e.cover.cssFilename }
  else e

/-- Stage 2 of `SetCover`: when no CSS path is supplied, encode the default
stylesheet as a data URL, remember it as the cover's temp file and register
it, first under `cover.css`, then under the numbering-template fallback;
a second collision is a panic (`none`).  With an explicit path, use it
untouched. -/
def setCoverCSSStep (e1 : Epub) (internalCSSPath : String) : Option (String × Epub) :=
  if internalCSSPath = "" then
    match addCSS { e1 with cover := { e1.cover with cssTempFile := defaultCoverCSSTempSource } }
        true defaultCoverCSSTempSource defaultCoverCSSFilename with
    | (.ok p, e') => some (p, e')
    | (.error (.filenameAlreadyUsed _), e') =>
      match addCSS e' true defaultCoverCSSTempSource
          (mediaFormatName "css" (e'.css.length + 1) ".css") with
      | (.ok p, e'') => some (p, e'')
      | (.error _, _) => none
    | (.error _, _) => none
  else some (internalCSSPath, e1)

/-- Stage 3 of `SetCover`: add the cover page section, first under
`cover.xhtml`, falling back to a generated filename; a second collision is
a panic (`none`). -/
def setCoverSectionStep (e3 : Epub) (coverBody cssPath : String) : Option (String × Epub) :=
  match addTopSection e3 coverBody "" defaultCoverXhtmlFilename cssPath with
  | (.ok p, e4) => some (p, e4)
  | (.error (.filenameAlreadyUsed _), _) =>
    match addTopSection e3 coverBody "" "" cssPath with
    | (.ok p, e4) => some (p, e4)
    | (.error _, _) => none
  | (.error _, _) => none

/-- `SetCover`.  `none` models the `panic` branches (a generated fallback
name that still collides).  The image is *recorded* as the cover but never
added to the image registry — `SetCover` expects an already-added path. -/
def setCover (e : Epub) (internalImagePath internalCSSPath : String) : Option Epub :=
  match setCoverCSSStep (setCoverRemoveOld e) internalCSSPath with
  | none => none
  | some (cssPath, e3) =>
    match setCoverSectionStep e3 (coverBodyFor internalImagePath) cssPath with
    | none => none
    | some (coverPath, e4) =>
      some { e4 with cover := { e4.cover with
        imageFilename := goBase internalImagePath
        cssFilename := goBase cssPath
        xhtmlFilename := goBase coverPath } }

/-! ### Package document and table of contents (pkg.go / toc.go)

Only the parts of the package document the writer populates per
serialization are modelled: the manifest item list and the spine.
(`pkg.setCover`, whose definition is not part of this snapshot, records the
cover image in the package *metadata* only; the manifest `cover-image`
property that the claims are about is produced by `writeMedia`.) -/

structure ManifestItem where
  id : String
  href : String
  mediaType : String
  properties : String
deriving DecidableEq, Repr

structure Pkg where
  manifest : List ManifestItem
  spine : List String
deriving DecidableEq, Repr

def Pkg.addToManifest (p : Pkg) (id href mediaType properties : String) : Pkg :=
  { p with manifest := p.manifest ++ [⟨id, href, mediaType, properties⟩] }

def Pkg.addToSpine (p : Pkg) (id : String) : Pkg :=
  { p with spine := p.spine ++ [id] }

/-- A leaf of the EPUB v3 nav tree (`tocNavItem` with `Children = nil`). -/
structure NavLeaf where
  href : String
  data : String
deriving DecidableEq, Repr

/-- A top-level entry of the EPUB v3 nav tree.  `addSubSection` only ever
appends leaves (items with nil children) below a top-level item, so the
recursive Go type is embedded at the two depths that occur. -/
structure NavItem where
  href : String
  data : String
  children : Option (List NavLeaf)
deriving DecidableEq, Repr

structure NcxLeaf where
  id : String
  text : String
  src : String
deriving DecidableEq, Repr

/-- An EPUB v2 NCX `navPoint` (two-level embedding, as for the nav tree). -/
structure NcxPoint where
  id : String
  text : String
  src : String
  children : Option (List NcxLeaf)
deriving DecidableEq, Repr

structure Toc where
  navLinks : List NavItem
  ncxNavMap : List NcxPoint
deriving DecidableEq, Repr

/-- `toc.addSection`: append one entry to the nav list and one `navPoint`
with id `navPoint-<index>` to the NCX nav map. -/
def Toc.addSection (t : Toc) (index : Nat) (title relativePath : String) : Toc :=
  { navLinks := t.navLinks ++ [⟨relativePath, title, none⟩]
    ncxNavMap := t.ncxNavMap ++ [⟨"navPoint-" ++ itoa index, title, relativePath, none⟩] }

/-- `toc.addSubSection`.  The nav side nests the new entry under the last
item whose href matches `parent` (defaulting to index 0) whenever
`len(Links) > parentNavIndex`; the NCX side guards its nesting code with
`parentNcxIndex > len(NavMap)`, faithfully reproduced here. -/
def Toc.addSubSection (t : Toc) (parent : String) (index : Nat)
    (title relativePath : String) : Toc :=
  let parentNavIndex := (lastMatchIdx t.navLinks fun nav => nav.href == parent).getD 0
  let l : NavLeaf := ⟨relativePath, title⟩
  let navLinks' :=
    if t.navLinks.length > parentNavIndex then
      updateAt t.navLinks parentNavIndex fun item =>
        { item with children := some ((item.children.getD []) ++ [l]) }
    else t.navLinks ++ [⟨relativePath, title, none⟩]
  let parentNcxIndex := (lastMatchIdx t.ncxNavMap fun q => q.src == parent).getD 0
  let np : NcxPoint := ⟨"navPoint-" ++ itoa index, title, relativePath, none⟩
  let ncx' :=
    if parentNcxIndex > t.ncxNavMap.length then
      updateAt t.ncxNavMap parentNcxIndex fun q =>
        { q with children := some ((q.children.getD []) ++ [⟨np.id, np.text, np.src⟩]) }
    else t.ncxNavMap ++ [np]
  { navLinks := navLinks', ncxNavMap := ncx' }

/-! ### The serialization pipeline (`WriteTo` and its helper phases)

The staging directory is modelled as the list of regular files created, as
root-relative slash-separated paths in creation order.  Media retrieval at
write time is summarized by `mt : String → String`, the media type the
grabber resolves for a source (a successful serialization is one where
every fetch succeeded, which is the case every claim addresses). -/

/-- `writeMedia`: fetch every entry of one registry into its category
folder and record it in the manifest; the cover image's filename gets the
`cover-image` properties value. -/
def writeMedia (coverImageFilename : String) (mt : String → String)
    (pkg : Pkg) (files : List String) (mediaMap : MediaMap) (folderName : String) :
    Pkg × List String :=
  mediaMap.foldl
    (fun acc p =>
      let props := if p.1 == coverImageFilename then coverImageProperties else ""
      (acc.1.addToManifest (fixXMLId p.1) (folderName ++ "/" ++ p.1) (mt p.2) props,
       acc.2 ++ ["EPUB/" ++ folderName ++ "/" ++ p.1]))
    (pkg, files)

/-- Accumulator threaded through the `writeSections` loop. -/
structure WriteAcc where
  pkg : Pkg
  toc : Toc
  files : List String
  index : Nat
deriving DecidableEq, Repr

/-- The body of the subsection loop of `writeSections`: bump the index, add
the child to both TOC forms under the parent's href, write its file, and
extend spine and manifest. -/
def writeChildStep (parentRelativePath : String) (a : WriteAcc) (c : SubSection) : WriteAcc :=
  { pkg := ((a.pkg.addToSpine c.filename).addToManifest c.filename
      ("xhtml/" ++ c.filename) mediaTypeXhtml "")
    toc := a.toc.addSubSection parentRelativePath (a.index + 1) c.xhtml.title
      ("xhtml/" ++ c.filename)
    files := a.files ++ ["EPUB/xhtml/" ++ c.filename]
    index := a.index + 1 }

/-- The body of the per-section loop in `writeSections`: write the file,
extend spine and manifest, and — only for a titled non-cover section — add
it to both TOC forms and process its children. -/
def writeOneSection (epubTitle cover : String) (acc : WriteAcc) (s : Section) : WriteAcc :=
  let x := if s.filename == cover then { s.xhtml with title := epubTitle } else s.xhtml
  let pkg1 := if s.filename == cover then acc.pkg else acc.pkg.addToSpine s.filename
  let acc2 : WriteAcc :=
    { pkg := pkg1.addToManifest s.filename ("xhtml/" ++ s.filename) mediaTypeXhtml ""
      toc := acc.toc
      files := acc.files ++ ["EPUB/xhtml/" ++ s.filename]
      index := acc.index }
  let acc3 :=
    if x.title ≠ "" ∧ s.filename ≠ cover then
      let accT := { acc2 with
        toc := acc2.toc.addSection acc2.index x.title ("xhtml/" ++ s.filename) }
      match s.children with
      | none => accT
      | some cs => cs.foldl (writeChildStep ("xhtml/" ++ s.filename)) accT
    else acc2
  { acc3 with index := acc3.index + 1 }

/-- `writeSections`: when any sections exist, put the cover first on the
spine, then process every top-level section in order. -/
def writeSections (e : Epub) (pkg : Pkg) (toc : Toc) (files : List String) :
    Pkg × Toc × List String :=
  if e.sections.isEmpty then (pkg, toc, files)
  else
    let pkg0 := if e.cover.xhtmlFilename ≠ "" then pkg.addToSpine e.cover.xhtmlFilename else pkg
    let acc := e.sections.foldl (writeOneSection e.title e.cover.xhtmlFilename)
      ⟨pkg0, toc, files, 0⟩
    (acc.pkg, acc.toc, acc.files)

/-- Result of one serialization pass. -/
structure WriteOut where
  pkg : Pkg
  toc : Toc
  files : List String
deriving DecidableEq, Repr

/-- The phase sequence of `WriteTo`: mimetype, folders, container file,
the four media categories, sections, the two TOC documents, package file. -/
def writeTo (e : Epub) (mt : String → String) : WriteOut :=
  let files := ["mimetype", "META-INF/container.xml"]
  let m1 := writeMedia e.cover.imageFilename mt ⟨[], []⟩ files e.css CSSFolderName
  let m2 := writeMedia e.cover.imageFilename mt m1.1 m1.2 e.fonts FontFolderName
  let m3 := writeMedia e.cover.imageFilename mt m2.1 m2.2 e.images ImageFolderName
  let m4 := writeMedia e.cover.imageFilename mt m3.1 m3.2 e.videos VideoFolderName
  let s := writeSections e m4.1 ⟨[], []⟩ m4.2
  let pkg5 := (s.1.addToManifest tocNavItemID tocNavFilename mediaTypeXhtml tocNavItemProperties).addToManifest
    tocNcxItemID tocNcxFilename mediaTypeNcx ""
  let files5 := s.2.2 ++ ["EPUB/" ++ tocNavFilename, "EPUB/" ++ tocNcxFilename]
  let files6 := files5 ++ ["EPUB/package.opf"]
  ⟨pkg5, s.2.1, files6⟩

/-! ### The archive phase (`writeEpub`) -/

inductive ZipMethod where
  | store
  | deflate
deriving DecidableEq, Repr

structure ZipEntry where
  name : String
  method : ZipMethod
deriving DecidableEq, Repr

/-- `a ≤ b` on strings as a boolean (lexicographic, the order `fs.WalkDir`
visits paths in). -/
def strLeb (a b : String) : Bool := !decide (b < a)

def insertSorted (x : String) : List String → List String
  | [] => [x]
  | y :: ys => if strLeb x y then x :: y :: ys else y :: insertSorted x ys

/-- Lexicographic sort, modelling the walk order of `fs.WalkDir`. -/
def sortStrings (l : List String) : List String := l.foldr insertSorted []

/-- `writeEpub`: the mimetype file is written first with method Store; the
subsequent walk over the staging tree skips the already-written mimetype
and adds every other regular file with the default (Deflate) method, named
by its slash-separated path relative to the staging root. -/
def writeEpubZip (files : List String) : List ZipEntry :=
  ⟨"mimetype", .store⟩ ::
    (sortStrings files).filterMap fun p =>
      if p == "mimetype" then none else some ⟨p, .deflate⟩

/-- `Write`/`WriteTo` end to end: stage all files, then zip them. -/
def writeZipOf (e : Epub) (mt : String → String) : List ZipEntry :=
  writeEpubZip (writeTo e mt).files

/-! ## Lemmas about decimal rendering -/

/-- Numeric value of an ASCII digit character. -/
def digitVal (c : Char) : Nat := c.toNat - 48

/-- Value of a most-significant-first digit list. -/
def evalD (l : List Char) : Nat := l.foldl (fun a c => 10 * a + digitVal c) 0

theorem digitVal_digitChar : ∀ k < 10, digitVal (digitChar k) = k := by decide

theorem evalD_append_singleton (l : List Char) (c : Char) :
    evalD (l ++ [c]) = 10 * evalD l + digitVal c := by
  simp [evalD, List.foldl_append]

theorem evalD_natDigitsGo : ∀ fuel n, n ≤ fuel → evalD (natDigitsGo fuel n) = n := by
  intro fuel
  induction fuel with
  | zero =>
    intro n h
    have hn : n = 0 := Nat.le_zero.mp h
    subst hn
    decide
  | succ f ih =>
    intro n h
    unfold natDigitsGo
    by_cases hlt : n < 10
    · simp only [hlt, if_true]
      simp [evalD, digitVal_digitChar n hlt]
    · simp only [hlt, if_false]
      rw [evalD_append_singleton]
      have hdiv : n / 10 ≤ f := by
        have h1 : n / 10 < n := Nat.div_lt_self (by omega) (by omega)
        omega
      rw [ih (n / 10) hdiv, digitVal_digitChar (n % 10) (Nat.mod_lt n (by omega))]
      omega

theorem evalD_replicate_zero (k : Nat) (l : List Char) :
    evalD (List.replicate k '0' ++ l) = evalD l := by
  induction k with
  | zero => simp
  | succ m ih =>
    have h0 : digitVal '0' = 0 := by decide
    simp only [List.replicate_succ, List.cons_append]
    show List.foldl (fun a c => 10 * a + digitVal c) (10 * 0 + digitVal '0')
      (List.replicate m '0' ++ l) = evalD l
    rw [h0]
    exact ih

theorem pad4_data (n : Nat) :
    (pad4 n).data = List.replicate (4 - (natDigitsGo n n).length) '0' ++ natDigitsGo n n :=
  rfl

theorem pad4_inj {a b : Nat} (h : pad4 a = pad4 b) : a = b := by
  have hd := congrArg String.data h
  rw [pad4_data, pad4_data] at hd
  have ha := evalD_replicate_zero (4 - (natDigitsGo a a).length) (natDigitsGo a a)
  have hb := evalD_replicate_zero (4 - (natDigitsGo b b).length) (natDigitsGo b b)
  have := congrArg evalD hd
  rw [ha, hb, evalD_natDigitsGo a a (le_refl a), evalD_natDigitsGo b b (le_refl b)] at this
  exact this

theorem sectionFormatName_inj {a b : Nat}
    (h : sectionFormatName a = sectionFormatName b) : a = b := by
  have hd := congrArg String.data h
  simp only [sectionFormatName, String.data_append, List.append_assoc] at hd
  have h1 := List.append_cancel_left hd
  have h2 := List.append_cancel_right h1
  exact pad4_inj (by apply String.ext; exact h2)

/-! ## The auto-generated section filename is fresh -/

theorem genAux_not_mem (used : List String) :
    ∀ fuel i, (∃ j, i ≤ j ∧ j < i + fuel ∧ sectionFormatName j ∉ used) →
      genSectionFilenameAux used fuel i ∉ used := by
  intro fuel
  induction fuel with
  | zero =>
    intro i hex
    obtain ⟨j, h1, h2, _⟩ := hex
    omega
  | succ f ih =>
    intro i hex
    obtain ⟨j, hij, hlt, hfree⟩ := hex
    unfold genSectionFilenameAux
    by_cases hmem : sectionFormatName i ∈ used
    · simp only [hmem, if_true]
      apply ih
      refine ⟨j, ?_, by omega, hfree⟩
      have : j ≠ i := fun he => hfree (he ▸ hmem)
      omega
    · simp [hmem]

theorem exists_free_index (used : List String) (i : Nat) :
    ∃ j, i ≤ j ∧ j < i + (used.length + 1) ∧ sectionFormatName j ∉ used := by
  by_contra hcon
  push_neg at hcon
  have hnd : ((List.range' i (used.length + 1)).map sectionFormatName).Nodup :=
    (List.nodup_range' _ _).map fun a b hab => sectionFormatName_inj hab
  have hsub : (List.range' i (used.length + 1)).map sectionFormatName ⊆ used := by
    intro x hx
    rcases List.mem_map.mp hx with ⟨j, hj, rfl⟩
    rcases List.mem_range'_1.mp hj with ⟨hj1, hj2⟩
    exact hcon j hj1 (by omega)
  have hle := (hnd.subperm hsub).length_le
  simp [List.length_map, List.length_range'] at hle

theorem genSectionFilename_not_mem (used : List String) :
    genSectionFilename used ∉ used := by
  apply genAux_not_mem
  obtain ⟨j, h1, h2, h3⟩ := exists_free_index used 1
  exact ⟨j, h1, h2, h3⟩

/-! ## Association-list lookups -/

theorem lookup_isSome_iff (k : String) (m : MediaMap) :
    (List.lookup k m).isSome = true ↔ k ∈ mediaKeys m := by
  induction m with
  | nil => simp [List.lookup, mediaKeys]
  | cons p t ih =>
    by_cases hk : k = p.1
    · subst hk
      simp [List.lookup, mediaKeys]
    · have hb : (k == p.1) = false := beq_eq_false_iff_ne.mpr hk
      simp [List.lookup, mediaKeys, hb, hk, ih]

theorem lookup_append_right_of_not_mem {k : String} {m : MediaMap} (t : MediaMap)
    (h : k ∉ mediaKeys m) : List.lookup k (m ++ t) = List.lookup k t := by
  induction m with
  | nil => simp
  | cons p s ih =>
    simp only [mediaKeys, List.map_cons, List.mem_cons] at h
    push_neg at h
    have hb : (k == p.1) = false := beq_eq_false_iff_ne.mpr h.1
    simpa [List.lookup, hb] using ih (by simpa [mediaKeys] using h.2)

/-! ## Sorting membership (the archive walk) -/

theorem mem_insertSorted (x y : String) (l : List String) :
    x ∈ insertSorted y l ↔ x = y ∨ x ∈ l := by
  induction l with
  | nil => simp [insertSorted]
  | cons a t ih =>
    by_cases hle : strLeb y a
    · simp [insertSorted, hle]
    · simp [insertSorted, hle, ih]
      tauto

theorem mem_sortStrings (x : String) (l : List String) :
    x ∈ sortStrings l ↔ x ∈ l := by
  induction l with
  | nil => simp [sortStrings]
  | cons a t ih =>
    show x ∈ insertSorted a (sortStrings t) ↔ _
    rw [mem_insertSorted]
    simp [ih]

/-! ## Claim C2 -/

/-- C2: for every archive produced by a successful `Write`/`WriteTo`, the
first zip entry is named `mimetype` and is written with the Store method
(no compression); every subsequent entry uses the standard (Deflate)
compression, and every entry is named by a staging-root-relative
forward-slash path (an element of the staged file list). -/
theorem C2_mimetype_first_store (e : Epub) (mt : String → String) :
    ∃ rest, writeZipOf e mt = ⟨"mimetype", .store⟩ :: rest ∧
      ∀ z ∈ rest, z.method = .deflate ∧
        z.name ∈ (writeTo e mt).files ∧ z.name ≠ "mimetype" := by
  refine ⟨_, rfl, ?_⟩
  intro z hz
  rcases List.mem_filterMap.mp hz with ⟨p, hp, hpz⟩
  by_cases hm : p = "mimetype"
  · subst hm
    rw [if_pos (by decide)] at hpz
    exact Option.noConfusion hpz
  · have hb : (p == "mimetype") = false := beq_eq_false_iff_ne.mpr hm
    rw [hb, if_neg (by decide)] at hpz
    obtain rfl := Option.some.inj hpz
    exact ⟨rfl, (mem_sortStrings p _).mp hp, hm⟩

/-! ## Claim C9 -/

/-- C9 counterexample: the claim quantifies over *every* source, but when
the filename derived from the source's base name is valid, short enough and
unused, `AddCSS(source, "")` registers that base name, not `css0002.css`:
with exactly one CSS file `a.css` registered, `AddCSS("b.css", "")` yields
internal filename `b.css`. -/
theorem C9_counterexample :
    (addMedia true "b.css" "" "css" CSSFolderName [("a.css", "srcA")]).1 =
        .ok "../css/b.css" ∧
      (addMedia true "b.css" "" "css" CSSFolderName [("a.css", "srcA")]).2 =
        [("a.css", "srcA"), ("b.css", "b.css")] ∧
      ("b.css" : String) ≠ "css0002.css" := by
  refine ⟨by decide, by decide, by decide⟩

/-- C9 amended: `AddCSS(source, "")` on a document with exactly one
registered CSS file falls back to the per-category numbering template only
when the filename derived from the source (its base name) is too long,
invalid, or already taken; in that case it registers
`css0002<lowercased ext of source>` — in particular `css0002.css` when the
source extension is `.css` — using the CSS category's count + 1,
independent of the other categories. -/
theorem C9_amended (source : String) (m : MediaMap)
    (hone : m.length = 1)
    (hfall : (decide (utf8Len (goBase source) > 255) || !validPath (goBase source) ||
      (List.lookup (goBase source) m).isSome) = true)
    (hfree : (List.lookup (mediaFormatName "css" 2 (toLowerStr (goExt source))) m).isSome = false) :
    addMedia true source "" "css" CSSFolderName m =
      (.ok ("../css/" ++ mediaFormatName "css" 2 (toLowerStr (goExt source))),
        m ++ [(mediaFormatName "css" 2 (toLowerStr (goExt source)), source)]) ∧
      (toLowerStr (goExt source) = ".css" →
        mediaFormatName "css" 2 (toLowerStr (goExt source)) = "css0002.css") := by
  have hname : resolvedMediaName source "" "css" m =
      mediaFormatName "css" 2 (toLowerStr (goExt source)) := by
    unfold resolvedMediaName genMediaName
    rw [if_pos rfl, if_pos hfall, hone]
  constructor
  · unfold addMedia
    rw [hname, if_neg (by decide), if_neg (fun hcon => Bool.false_ne_true (hfree.symm.trans hcon))]
    rfl
  · intro hext
    rw [hext]
    decide

/-- Witness for C9 amended, at a source whose base name is already taken. -/
theorem C9_amended_witness :
    addMedia true "dir/a.css" "" "css" CSSFolderName [("a.css", "srcA")] =
      (.ok "../css/css0002.css", [("a.css", "srcA"), ("css0002.css", "dir/a.css")]) := by
  have h := (C9_amended "dir/a.css" [("a.css", "srcA")] (by decide) (by decide) (by decide)).1
  exact h

/-! ## Structural lemmas about the section tree -/

theorem lastMatchIdxFrom_bounds {α : Type} (p : α → Bool) :
    ∀ (l : List α) (i j : Nat), lastMatchIdxFrom p l i = some j → i ≤ j ∧ j < i + l.length := by
  intro l
  induction l with
  | nil => intro i j h; simp [lastMatchIdxFrom] at h
  | cons a t ih =>
    intro i j h
    rw [lastMatchIdxFrom] at h
    cases hrec : lastMatchIdxFrom p t (i + 1) with
    | some k =>
      rw [hrec] at h
      simp only [Option.some.injEq] at h
      subst h
      have hb := ih (i + 1) k hrec
      simp only [List.length_cons]
      omega
    | none =>
      rw [hrec] at h
      simp only at h
      by_cases hp : p a = true
      · rw [if_pos hp] at h
        simp only [Option.some.injEq] at h
        subst h
        simp only [List.length_cons]
        omega
      · rw [if_neg hp] at h
        exact absurd h (by simp)

theorem lastMatchIdxFrom_none {α : Type} (p : α → Bool) :
    ∀ (l : List α) (i : Nat), (∀ a ∈ l, p a = false) → lastMatchIdxFrom p l i = none := by
  intro l
  induction l with
  | nil => intro i _; rfl
  | cons a t ih =>
    intro i hall
    rw [lastMatchIdxFrom, ih (i + 1) fun b hb => hall b (List.mem_cons_of_mem a hb)]
    simp only
    rw [if_neg]
    rw [hall a (List.mem_cons_self a t)]
    exact Bool.false_ne_true

theorem lastMatchIdx_lt {α : Type} {l : List α} {p : α → Bool} {j : Nat}
    (h : lastMatchIdx l p = some j) : j < l.length := by
  have := lastMatchIdxFrom_bounds p l 0 j h
  omega

theorem allNames_append_single (secs : List Section) (fn : String) (x : Xhtml) :
    allNames (secs ++ [⟨fn, x, none⟩]) = allNames secs ++ [fn] := by
  simp [allNames]

theorem allNames_addChildAt (c : SubSection) :
    ∀ (secs : List Section) (i : Nat), i < secs.length →
      (allNames (addChildAt secs i c)).Perm (allNames secs ++ [c.filename]) := by
  intro secs
  induction secs with
  | nil => intro i h; simp at h
  | cons s t ih =>
    intro i hi
    cases i with
    | zero =>
      show (allNames ({ s with children := some ((s.children.getD []) ++ [c]) } :: t)).Perm _
      simp only [allNames, List.flatMap_cons, Option.getD_some, List.map_append, List.map_cons,
        List.map_nil, List.cons_append, List.append_assoc, List.nil_append]
      exact List.Perm.cons _
        (List.Perm.append_left _ (List.perm_append_singleton _ _).symm)
    | succ n =>
      show (allNames (s :: addChildAt t n c)).Perm _
      have hrec := ih n (by simpa using hi)
      simp only [allNames] at hrec ⊢
      simp only [List.flatMap_cons, List.cons_append, List.append_assoc]
      exact List.Perm.cons _ (List.Perm.append_left _ hrec)

theorem sectionNameTaken_iff (secs : List Section) (fn : String) :
    sectionNameTaken secs fn = true ↔ fn ∈ allNames secs := by
  induction secs with
  | nil => simp [sectionNameTaken, allNames]
  | cons s t ih =>
    simp only [sectionNameTaken, List.any_cons, Bool.or_eq_true, allNames, List.flatMap_cons,
      List.mem_append, List.mem_cons] at *
    constructor
    · rintro (h | h)
      · rcases h with h | h
        · left; left; exact (beq_iff_eq.mp h).symm
        · rcases List.any_eq_true.mp h with ⟨cc, hcc, hb⟩
          left; right
          exact List.mem_map.mpr ⟨cc, hcc, beq_iff_eq.mp hb⟩
      · right; exact ih.mp h
    · rintro (h | h)
      · rcases h with h | h
        · left; left; exact beq_iff_eq.mpr h.symm
        · rcases List.mem_map.mp h with ⟨cc, hcc, hcfn⟩
          left; right
          exact List.any_eq_true.mpr ⟨cc, hcc, beq_iff_eq.mpr hcfn⟩
      · right; exact ih.mpr h

/-! ## `addMedia` preserves key uniqueness and rejects collisions cleanly -/

theorem addMedia_keys_nodup (checkOk : Bool) (source internalFilename category folderName : String)
    (m : MediaMap) (h : (mediaKeys m).Nodup) :
    (mediaKeys (addMedia checkOk source internalFilename category folderName m).2).Nodup := by
  unfold addMedia
  cases checkOk with
  | false => simpa using h
  | true =>
    rw [if_neg (by decide)]
    by_cases hl : (List.lookup (resolvedMediaName source internalFilename category m) m).isSome = true
    · rw [if_pos hl]
      exact h
    · rw [if_neg hl]
      have hnot : resolvedMediaName source internalFilename category m ∉ mediaKeys m :=
        fun hc => hl ((lookup_isSome_iff _ m).mpr hc)
      show (mediaKeys (m ++ [(resolvedMediaName source internalFilename category m, source)])).Nodup
      have hk : mediaKeys (m ++ [(resolvedMediaName source internalFilename category m, source)]) =
          mediaKeys m ++ [resolvedMediaName source internalFilename category m] := by
        simp [mediaKeys]
      rw [hk]
      refine List.Nodup.append h (List.nodup_singleton _) ?_
      intro a ha hb
      simp at hb
      subst hb
      exact hnot ha

theorem addMedia_collision (source internalFilename category folderName : String)
    (m : MediaMap) (hne : internalFilename ≠ "") (hmem : internalFilename ∈ mediaKeys m) :
    addMedia true source internalFilename category folderName m =
      (.error (.filenameAlreadyUsed internalFilename), m) := by
  have hres : resolvedMediaName source internalFilename category m = internalFilename := by
    unfold resolvedMediaName
    rw [if_neg hne]
  unfold addMedia
  rw [if_neg (by decide), hres, if_pos ((lookup_isSome_iff internalFilename m).mpr hmem)]

/-! ## `addSection` preserves tree-wide uniqueness and rejects collisions -/

theorem nodup_names_append (names : List String) (fn : String)
    (h : names.Nodup) (hfree : fn ∉ names) : (names ++ [fn]).Nodup := by
  refine List.Nodup.append h (List.nodup_singleton _) ?_
  intro a ha hb
  simp at hb
  subst hb
  exact hfree ha

theorem addSectionCore_nodup (e : Epub) (parentFilename body sectionTitle internalCSSPath fn : String)
    (h : (allNames e.sections).Nodup) (hfree : fn ∉ allNames e.sections) :
    (allNames (addSectionCore e parentFilename body sectionTitle internalCSSPath fn).2.sections).Nodup := by
  unfold addSectionCore
  by_cases hpe : parentFilename ≠ "" ∧
      lastMatchIdx e.sections (fun s => s.filename == parentFilename) = none
  · rw [if_pos hpe]
    exact h
  · rw [if_neg hpe]
    cases hidx : lastMatchIdx e.sections fun s => s.filename == parentFilename with
    | some i =>
      have hlt := lastMatchIdx_lt hidx
      have hperm := allNames_addChildAt
        ⟨fn, mkSectionXhtml body sectionTitle internalCSSPath⟩ e.sections i hlt
      exact hperm.nodup_iff.mpr (nodup_names_append _ _ h hfree)
    | none =>
      show (allNames (e.sections ++ [⟨fn, mkSectionXhtml body sectionTitle internalCSSPath, none⟩])).Nodup
      rw [allNames_append_single]
      exact nodup_names_append _ _ h hfree

theorem addSection_nodup (e : Epub) (parentFilename body sectionTitle internalFilename internalCSSPath : String)
    (h : (allNames e.sections).Nodup) :
    (allNames (addSection e parentFilename body sectionTitle internalFilename internalCSSPath).2.sections).Nodup := by
  unfold addSection
  by_cases hif : internalFilename = ""
  · rw [if_pos hif]
    apply addSectionCore_nodup
    · exact h
    · exact genSectionFilename_not_mem (allNames e.sections)
  · rw [if_neg hif]
    by_cases htaken : sectionNameTaken e.sections internalFilename = true
    · rw [if_pos htaken]
      exact h
    · rw [if_neg htaken]
      apply addSectionCore_nodup
      · exact h
      · intro hc
        exact htaken ((sectionNameTaken_iff e.sections internalFilename).mpr hc)

theorem addSection_collision (e : Epub) (parentFilename body sectionTitle internalFilename internalCSSPath : String)
    (hne : internalFilename ≠ "") (hmem : internalFilename ∈ allNames e.sections) :
    addSection e parentFilename body sectionTitle internalFilename internalCSSPath =
      (.error (.filenameAlreadyUsed internalFilename), e) := by
  unfold addSection
  rw [if_neg hne, if_pos ((sectionNameTaken_iff e.sections internalFilename).mpr hmem)]

/-! ## Claim C3 -/

/-- C3: within one namespace (a media category's registry, or the whole
section tree counting top-level names and all child names together), no two
successfully added entries share a filename — uniqueness of the name lists
is preserved by every `Add*` call — and a call whose explicitly supplied
filename collides in its namespace returns `FilenameAlreadyUsedError` and
leaves the document state exactly as it was. -/
theorem C3_uniqueness :
    (∀ (checkOk : Bool) (source internalFilename category folderName : String) (m : MediaMap),
      (mediaKeys m).Nodup →
        (mediaKeys (addMedia checkOk source internalFilename category folderName m).2).Nodup ∧
        (internalFilename ≠ "" → internalFilename ∈ mediaKeys m → checkOk = true →
          addMedia checkOk source internalFilename category folderName m =
            (.error (.filenameAlreadyUsed internalFilename), m))) ∧
    (∀ (e : Epub) (parentFilename body sectionTitle internalFilename internalCSSPath : String),
      (allNames e.sections).Nodup →
        (allNames (addSection e parentFilename body sectionTitle internalFilename
          internalCSSPath).2.sections).Nodup ∧
        (internalFilename ≠ "" → internalFilename ∈ allNames e.sections →
          addSection e parentFilename body sectionTitle internalFilename internalCSSPath =
            (.error (.filenameAlreadyUsed internalFilename), e))) := by
  constructor
  · intro checkOk source internalFilename category folderName m h
    refine ⟨addMedia_keys_nodup checkOk source internalFilename category folderName m h, ?_⟩
    intro hne hmem hck
    subst hck
    exact addMedia_collision source internalFilename category folderName m hne hmem
  · intro e parentFilename body sectionTitle internalFilename internalCSSPath h
    exact ⟨addSection_nodup e parentFilename body sectionTitle internalFilename internalCSSPath h,
      fun hne hmem => addSection_collision e parentFilename body sectionTitle internalFilename
        internalCSSPath hne hmem⟩

/-- Witness for C3 at concrete inputs: a collision on the already-used key
`a.png` errors without mutating the registry, and likewise a collision on
`s1.xhtml` in a one-section document leaves the document unchanged. -/
theorem C3_uniqueness_witness :
    (mediaKeys (addMedia true "b.png" "a.png" "image" ImageFolderName [("a.png", "s")]).2).Nodup ∧
    addMedia true "b.png" "a.png" "image" ImageFolderName [("a.png", "s")] =
      (.error (.filenameAlreadyUsed "a.png"), [("a.png", "s")]) ∧
    (allNames (addSection (addTopSection (newEpub "T") "b" "S1" "s1.xhtml" "").2
      "" "b" "S2" "s1.xhtml" "").2.sections).Nodup ∧
    addSection (addTopSection (newEpub "T") "b" "S1" "s1.xhtml" "").2 "" "b" "S2" "s1.xhtml" "" =
      (.error (.filenameAlreadyUsed "s1.xhtml"),
        (addTopSection (newEpub "T") "b" "S1" "s1.xhtml" "").2) := by
  have h1 := C3_uniqueness.1 true "b.png" "a.png" "image" ImageFolderName [("a.png", "s")] (by decide)
  have h2 := C3_uniqueness.2 ((addTopSection (newEpub "T") "b" "S1" "s1.xhtml" "").2)
    "" "b" "S2" "s1.xhtml" "" (by decide)
  exact ⟨h1.1, h1.2 (by decide) (by decide) rfl, h2.1, h2.2 (by decide) (by decide)⟩

/-! ## The write phases: characterizations -/

/-- The manifest item `writeMedia` produces for one registry entry. -/
def mediaItemOf (cov : String) (mt : String → String) (folderName : String)
    (p : String × String) : ManifestItem :=
  ⟨fixXMLId p.1, folderName ++ "/" ++ p.1, mt p.2,
    if p.1 == cov then coverImageProperties else ""⟩

theorem writeMedia_eq (cov : String) (mt : String → String) (folderName : String) :
    ∀ (m : MediaMap) (pkg : Pkg) (files : List String),
      writeMedia cov mt pkg files m folderName =
        (⟨pkg.manifest ++ m.map (mediaItemOf cov mt folderName), pkg.spine⟩,
          files ++ m.map fun p => "EPUB/" ++ folderName ++ "/" ++ p.1) := by
  intro m
  induction m with
  | nil => intro pkg files; simp [writeMedia]
  | cons p t ih =>
    intro pkg files
    show writeMedia cov mt
      (pkg.addToManifest (fixXMLId p.1) (folderName ++ "/" ++ p.1) (mt p.2)
        (if p.1 == cov then coverImageProperties else ""))
      (files ++ ["EPUB/" ++ folderName ++ "/" ++ p.1]) t folderName = _
    rw [ih]
    simp [Pkg.addToManifest, mediaItemOf, List.append_assoc]

theorem childFold_extend (rel : String) :
    ∀ (cs : List SubSection) (a : WriteAcc),
      ∃ sp mf fl,
        (cs.foldl (writeChildStep rel) a).pkg.spine = a.pkg.spine ++ sp ∧
        (cs.foldl (writeChildStep rel) a).pkg.manifest = a.pkg.manifest ++ mf ∧
        (cs.foldl (writeChildStep rel) a).files = a.files ++ fl ∧
        (∀ x ∈ sp, x ∈ cs.map (·.filename)) ∧
        (∀ it ∈ mf, ∃ n ∈ cs.map (·.filename),
          it = ⟨n, "xhtml/" ++ n, mediaTypeXhtml, ""⟩) ∧
        (∀ f ∈ fl, ∃ n ∈ cs.map (·.filename), f = "EPUB/xhtml/" ++ n) := by
  intro cs
  induction cs with
  | nil =>
    intro a
    exact ⟨[], [], [], by simp, by simp, by simp, by simp, by simp, by simp⟩
  | cons c t ih =>
    intro a
    obtain ⟨sp, mf, fl, h1, h2, h3, h4, h5, h6⟩ := ih (writeChildStep rel a c)
    refine ⟨c.filename :: sp, ⟨c.filename, "xhtml/" ++ c.filename, mediaTypeXhtml, ""⟩ :: mf,
      ("EPUB/xhtml/" ++ c.filename) :: fl, ?_, ?_, ?_, ?_, ?_, ?_⟩
    · show (t.foldl (writeChildStep rel) (writeChildStep rel a c)).pkg.spine = _
      rw [h1]
      simp [writeChildStep, Pkg.addToSpine, Pkg.addToManifest]
    · show (t.foldl (writeChildStep rel) (writeChildStep rel a c)).pkg.manifest = _
      rw [h2]
      simp [writeChildStep, Pkg.addToSpine, Pkg.addToManifest]
    · show (t.foldl (writeChildStep rel) (writeChildStep rel a c)).files = _
      rw [h3]
      simp [writeChildStep]
    · intro x hx
      rcases List.mem_cons.mp hx with rfl | hx
      · simp
      · simp only [List.map_cons, List.mem_cons]
        exact Or.inr (h4 x hx)
    · intro it hit
      rcases List.mem_cons.mp hit with rfl | hit
      · exact ⟨c.filename, by simp⟩
      · obtain ⟨n, hn, hn2⟩ := h5 it hit
        exact ⟨n, by simp only [List.map_cons, List.mem_cons]; exact Or.inr hn, hn2⟩
    · intro f hf
      rcases List.mem_cons.mp hf with rfl | hf
      · exact ⟨c.filename, by simp⟩
      · obtain ⟨n, hn, hn2⟩ := h6 f hf
        exact ⟨n, by simp only [List.map_cons, List.mem_cons]; exact Or.inr hn, hn2⟩

/-- The names one top-level section contributes: its own and its children's. -/
def groupNames (s : Section) : List String :=
  s.filename :: (s.children.getD []).map (·.filename)

theorem writeOneSection_extend (T C : String) (acc : WriteAcc) (s : Section) :
    ∃ sp mf fl,
      (writeOneSection T C acc s).pkg.spine = acc.pkg.spine ++ sp ∧
      (writeOneSection T C acc s).pkg.manifest = acc.pkg.manifest ++ mf ∧
      (writeOneSection T C acc s).files = acc.files ++ fl ∧
      (∀ x ∈ sp, x ∈ groupNames s) ∧
      (∀ it ∈ mf, ∃ n ∈ groupNames s, it = ⟨n, "xhtml/" ++ n, mediaTypeXhtml, ""⟩) ∧
      (∀ f ∈ fl, ∃ n ∈ groupNames s, f = "EPUB/xhtml/" ++ n) := by
  simp only [writeOneSection]
  by_cases hcov : s.filename = C
  · -- the cover section: excluded from the TOC branch by its filename
    have hcov' : (s.filename == C) = true := beq_iff_eq.mpr hcov
    rw [if_pos hcov', if_pos hcov', if_neg (fun hcon => hcon.2 hcov)]
    refine ⟨[], [⟨s.filename, "xhtml/" ++ s.filename, mediaTypeXhtml, ""⟩],
      ["EPUB/xhtml/" ++ s.filename], ?_, ?_, ?_, by simp, ?_, ?_⟩
    · simp [Pkg.addToManifest]
    · simp [Pkg.addToManifest]
    · simp
    · intro it hit
      rcases List.mem_cons.mp hit with rfl | hit
      · exact ⟨s.filename, by simp [groupNames]⟩
      · simp at hit
    · intro f hf
      rcases List.mem_cons.mp hf with rfl | hf
      · exact ⟨s.filename, by simp [groupNames]⟩
      · simp at hf
  · have hncov : ¬((s.filename == C) = true) := by
      simp [beq_eq_false_iff_ne.mpr hcov]
    rw [if_neg hncov, if_neg hncov]
    by_cases hT : (s.xhtml.title ≠ "" ∧ s.filename ≠ C)
    · rw [if_pos hT]
      cases hch : s.children with
      | none =>
        refine ⟨[s.filename], [⟨s.filename, "xhtml/" ++ s.filename, mediaTypeXhtml, ""⟩],
          ["EPUB/xhtml/" ++ s.filename], ?_, ?_, ?_, ?_, ?_, ?_⟩
        · simp [Pkg.addToSpine, Pkg.addToManifest]
        · simp [Pkg.addToSpine, Pkg.addToManifest]
        · simp
        · intro x hx
          rcases List.mem_cons.mp hx with rfl | hx
          · simp [groupNames]
          · simp at hx
        · intro it hit
          rcases List.mem_cons.mp hit with rfl | hit
          · exact ⟨s.filename, by simp [groupNames]⟩
          · simp at hit
        · intro f hf
          rcases List.mem_cons.mp hf with rfl | hf
          · exact ⟨s.filename, by simp [groupNames]⟩
          · simp at hf
      | some cs =>
        obtain ⟨sp, mf, fl, h1, h2, h3, h4, h5, h6⟩ :=
          childFold_extend ("xhtml/" ++ s.filename) cs
            { pkg := (acc.pkg.addToSpine s.filename).addToManifest s.filename
                ("xhtml/" ++ s.filename) mediaTypeXhtml ""
              toc := acc.toc.addSection acc.index s.xhtml.title ("xhtml/" ++ s.filename)
              files := acc.files ++ ["EPUB/xhtml/" ++ s.filename]
              index := acc.index }
        refine ⟨s.filename :: sp, ⟨s.filename, "xhtml/" ++ s.filename, mediaTypeXhtml, ""⟩ :: mf,
          ("EPUB/xhtml/" ++ s.filename) :: fl, ?_, ?_, ?_, ?_, ?_, ?_⟩
        · show (cs.foldl (writeChildStep ("xhtml/" ++ s.filename)) _).pkg.spine = _
          rw [h1]
          simp [Pkg.addToSpine, Pkg.addToManifest]
        · show (cs.foldl (writeChildStep ("xhtml/" ++ s.filename)) _).pkg.manifest = _
          rw [h2]
          simp [Pkg.addToSpine, Pkg.addToManifest]
        · show (cs.foldl (writeChildStep ("xhtml/" ++ s.filename)) _).files = _
          rw [h3]
          simp
        · intro x hx
          rcases List.mem_cons.mp hx with rfl | hx
          · simp [groupNames]
          · simp only [groupNames, hch, Option.getD_some, List.mem_cons]
            exact Or.inr (h4 x hx)
        · intro it hit
          rcases List.mem_cons.mp hit with rfl | hit
          · exact ⟨s.filename, by simp [groupNames]⟩
          · obtain ⟨n, hn, hn2⟩ := h5 it hit
            refine ⟨n, ?_, hn2⟩
            simp only [groupNames, hch, Option.getD_some, List.mem_cons]
            exact Or.inr hn
        · intro f hf
          rcases List.mem_cons.mp hf with rfl | hf
          · exact ⟨s.filename, by simp [groupNames]⟩
          · obtain ⟨n, hn, hn2⟩ := h6 f hf
            refine ⟨n, ?_, hn2⟩
            simp only [groupNames, hch, Option.getD_some, List.mem_cons]
            exact Or.inr hn
    · rw [if_neg hT]
      refine ⟨[s.filename], [⟨s.filename, "xhtml/" ++ s.filename, mediaTypeXhtml, ""⟩],
        ["EPUB/xhtml/" ++ s.filename], ?_, ?_, ?_, ?_, ?_, ?_⟩
      · simp [Pkg.addToSpine, Pkg.addToManifest]
      · simp [Pkg.addToSpine, Pkg.addToManifest]
      · simp
      · intro x hx
        rcases List.mem_cons.mp hx with rfl | hx
        · simp [groupNames]
        · simp at hx
      · intro it hit
        rcases List.mem_cons.mp hit with rfl | hit
        · exact ⟨s.filename, by simp [groupNames]⟩
        · simp at hit
      · intro f hf
        rcases List.mem_cons.mp hf with rfl | hf
        · exact ⟨s.filename, by simp [groupNames]⟩
        · simp at hf

theorem allNames_eq_flatMap_groupNames (secs : List Section) :
    allNames secs = secs.flatMap groupNames := rfl

theorem sectionsFold_extend (T C : String) :
    ∀ (secs : List Section) (acc : WriteAcc),
      ∃ sp mf fl,
        (secs.foldl (writeOneSection T C) acc).pkg.spine = acc.pkg.spine ++ sp ∧
        (secs.foldl (writeOneSection T C) acc).pkg.manifest = acc.pkg.manifest ++ mf ∧
        (secs.foldl (writeOneSection T C) acc).files = acc.files ++ fl ∧
        (∀ x ∈ sp, x ∈ allNames secs) ∧
        (∀ it ∈ mf, ∃ n ∈ allNames secs, it = ⟨n, "xhtml/" ++ n, mediaTypeXhtml, ""⟩) ∧
        (∀ f ∈ fl, ∃ n ∈ allNames secs, f = "EPUB/xhtml/" ++ n) := by
  intro secs
  induction secs with
  | nil =>
    intro acc
    exact ⟨[], [], [], by simp, by simp, by simp, by simp, by simp, by simp⟩
  | cons s t ih =>
    intro acc
    obtain ⟨sp1, mf1, fl1, g1, g2, g3, g4, g5, g6⟩ := writeOneSection_extend T C acc s
    obtain ⟨sp2, mf2, fl2, h1, h2, h3, h4, h5, h6⟩ := ih (writeOneSection T C acc s)
    have hmem : ∀ n, n ∈ groupNames s ∨ n ∈ allNames t → n ∈ allNames (s :: t) := by
      intro n hn
      simp only [allNames_eq_flatMap_groupNames, List.flatMap_cons, List.mem_append]
      exact hn
    refine ⟨sp1 ++ sp2, mf1 ++ mf2, fl1 ++ fl2, ?_, ?_, ?_, ?_, ?_, ?_⟩
    · show (t.foldl (writeOneSection T C) (writeOneSection T C acc s)).pkg.spine = _
      rw [h1, g1, List.append_assoc]
    · show (t.foldl (writeOneSection T C) (writeOneSection T C acc s)).pkg.manifest = _
      rw [h2, g2, List.append_assoc]
    · show (t.foldl (writeOneSection T C) (writeOneSection T C acc s)).files = _
      rw [h3, g3, List.append_assoc]
    · intro x hx
      rcases List.mem_append.mp hx with hx | hx
      · exact hmem x (Or.inl (g4 x hx))
      · exact hmem x (Or.inr (h4 x hx))
    · intro it hit
      rcases List.mem_append.mp hit with hit | hit
      · obtain ⟨n, hn, hn2⟩ := g5 it hit
        exact ⟨n, hmem n (Or.inl hn), hn2⟩
      · obtain ⟨n, hn, hn2⟩ := h5 it hit
        exact ⟨n, hmem n (Or.inr hn), hn2⟩
    · intro f hf
      rcases List.mem_append.mp hf with hf | hf
      · obtain ⟨n, hn, hn2⟩ := g6 f hf
        exact ⟨n, hmem n (Or.inl hn), hn2⟩
      · obtain ⟨n, hn, hn2⟩ := h6 f hf
        exact ⟨n, hmem n (Or.inr hn), hn2⟩

/-- `writeSections` output, decomposed: the spine opens with the cover when
one is set, and everything appended to spine, manifest and files comes from
the section tree's names. -/
theorem writeSections_extend (e : Epub) (pkg : Pkg) (toc : Toc) (files : List String)
    (hne : e.sections ≠ []) :
    ∃ sp mf fl,
      (writeSections e pkg toc files).1.spine =
        pkg.spine ++ ((if e.cover.xhtmlFilename ≠ "" then [e.cover.xhtmlFilename] else []) ++ sp) ∧
      (writeSections e pkg toc files).1.manifest = pkg.manifest ++ mf ∧
      (writeSections e pkg toc files).2.2 = files ++ fl ∧
      (∀ x ∈ sp, x ∈ allNames e.sections) ∧
      (∀ it ∈ mf, ∃ n ∈ allNames e.sections, it = ⟨n, "xhtml/" ++ n, mediaTypeXhtml, ""⟩) ∧
      (∀ f ∈ fl, ∃ n ∈ allNames e.sections, f = "EPUB/xhtml/" ++ n) := by
  unfold writeSections
  rw [if_neg (by simpa [List.isEmpty_iff] using hne)]
  by_cases hcov : e.cover.xhtmlFilename ≠ ""
  · rw [if_pos hcov]
    obtain ⟨sp, mf, fl, h1, h2, h3, h4, h5, h6⟩ := sectionsFold_extend e.title e.cover.xhtmlFilename
      e.sections ⟨pkg.addToSpine e.cover.xhtmlFilename, toc, files, 0⟩
    refine ⟨sp, mf, fl, ?_, ?_, ?_, h4, h5, h6⟩
    · rw [h1]
      simp [Pkg.addToSpine, hcov]
    · rw [h2]
      simp [Pkg.addToSpine]
    · show (List.foldl (writeOneSection e.title e.cover.xhtmlFilename)
        ⟨pkg.addToSpine e.cover.xhtmlFilename, toc, files, 0⟩ e.sections).files = _
      rw [h3]
  · rw [if_neg hcov]
    obtain ⟨sp, mf, fl, h1, h2, h3, h4, h5, h6⟩ := sectionsFold_extend e.title e.cover.xhtmlFilename
      e.sections ⟨pkg, toc, files, 0⟩
    refine ⟨sp, mf, fl, ?_, ?_, ?_, h4, h5, h6⟩
    · rw [h1]
      simp [hcov]
    · rw [h2]
    · show (List.foldl (writeOneSection e.title e.cover.xhtmlFilename)
        ⟨pkg, toc, files, 0⟩ e.sections).files = _
      rw [h3]

/-! ## Claim C4 -/

theorem writeSections_spine_head (e : Epub) (pkg : Pkg) (toc : Toc) (files : List String)
    (hcov : e.cover.xhtmlFilename ≠ "") (hne : e.sections ≠ []) (hsp : pkg.spine = []) :
    (writeSections e pkg toc files).1.spine.head? = some e.cover.xhtmlFilename := by
  obtain ⟨sp, mf, fl, h1, h2, h3, h4, h5, h6⟩ := writeSections_extend e pkg toc files hne
  rw [if_pos hcov] at h1
  rw [h1, hsp]
  simp

/-- C4: if a cover has been set (its section is part of the tree, as
`SetCover` guarantees), the serialized spine's first `itemref` refers to
the cover section, no matter which sections or subsections were added
before or after `SetCover`. -/
theorem C4_spine_cover_first (e : Epub) (mt : String → String)
    (hcov : e.cover.xhtmlFilename ≠ "") (hne : e.sections ≠ []) :
    (writeTo e mt).pkg.spine.head? = some e.cover.xhtmlFilename := by
  simp only [writeTo, writeMedia_eq]
  exact writeSections_spine_head e _ _ _ hcov hne rfl

/-- A fixed media-type resolver for concrete evaluations. -/
def mtConst : String → String := fun _ => "application/test"

/-- A document with a cover section and one further section, for the C4
witness. -/
def c4Demo : Epub :=
  { newEpub "T" with
    cover := ⟨"cover.css", "", "img.png", "cover.xhtml"⟩
    sections := [⟨"a.xhtml", mkSectionXhtml "b" "A" "", none⟩,
      ⟨"cover.xhtml", mkSectionXhtml "img" "" "", none⟩] }

/-- Witness for C4: with the cover set, the spine starts with it. -/
theorem C4_spine_cover_first_witness :
    (writeTo c4Demo mtConst).pkg.spine.head? = some "cover.xhtml" :=
  C4_spine_cover_first c4Demo mtConst (by decide) (by decide)

/-! ## Claim C1 -/

/-- A document with an untitled top-level section and a titled subsection
below it, built through the public API. -/
def c1Epub : Epub :=
  (addSubSection (addTopSection (newEpub "T") "<p>x</p>" "" "" "").2
    "section0001.xhtml" "<p>y</p>" "Sub" "sub.xhtml" "").2

/-- C1: the code drops a subsection from the serialized package entirely
when its parent section has an empty title (and likewise under the cover):
`AddSubSection` succeeds and returns `sub.xhtml`, yet after serialization
no manifest item, no spine entry and no staged file exists for it —
contradicting both the claim and `AddSubSection`'s own documentation that
the file is stored in the EPUB. -/
theorem C1_subsection_dropped :
    (addSubSection (addTopSection (newEpub "T") "<p>x</p>" "" "" "").2
        "section0001.xhtml" "<p>y</p>" "Sub" "sub.xhtml" "").1 = .ok "sub.xhtml" ∧
    ((writeTo c1Epub mtConst).pkg.manifest.filter fun it => it.href == "xhtml/sub.xhtml") = [] ∧
    "sub.xhtml" ∉ (writeTo c1Epub mtConst).pkg.spine ∧
    "EPUB/xhtml/sub.xhtml" ∉ (writeTo c1Epub mtConst).files := by
  refine ⟨by decide, by decide, by decide, by decide⟩

/-! ## Claim C5 -/

/-- A titled section with a titled subsection, built through the API. -/
def c5Epub : Epub :=
  (addSubSection (addTopSection (newEpub "T") "a" "A" "a.xhtml" "").2
    "a.xhtml" "b" "B" "b.xhtml" "").2

/-- C5: the two navigation documents are not isomorphic trees.  For the
same document the modern nav nests B under A, while the legacy NCX appends
B as a second top-level `navPoint` with no children — the NCX nesting
branch (`parentNcxIndex > len(NavMap)`) is unreachable. -/
theorem C5_ncx_flat_not_nested :
    (writeTo c5Epub mtConst).toc.navLinks =
      [⟨"xhtml/a.xhtml", "A", some [⟨"xhtml/b.xhtml", "B"⟩]⟩] ∧
    (writeTo c5Epub mtConst).toc.ncxNavMap =
      [⟨"navPoint-0", "A", "xhtml/a.xhtml", none⟩,
        ⟨"navPoint-1", "B", "xhtml/b.xhtml", none⟩] := by
  refine ⟨by decide, by decide⟩

/-! ## Claim C7 -/

/-- A titled section with an empty-titled subsection. -/
def c7Epub : Epub :=
  (addSubSection (addTopSection (newEpub "T") "a" "A" "a.xhtml" "").2
    "a.xhtml" "b" "" "b.xhtml" "").2

/-- C7: a subsection with an empty title *does* appear as a node in both
navigation documents (nested in the nav, flat in the NCX), because the
subsection loop never checks the child's title — contradicting the claim
and `AddSubSection`'s documentation. -/
theorem C7_untitled_subsection_in_nav :
    (writeTo c7Epub mtConst).toc.navLinks =
      [⟨"xhtml/a.xhtml", "A", some [⟨"xhtml/b.xhtml", ""⟩]⟩] ∧
    (writeTo c7Epub mtConst).toc.ncxNavMap =
      [⟨"navPoint-0", "A", "xhtml/a.xhtml", none⟩,
        ⟨"navPoint-1", "", "xhtml/b.xhtml", none⟩] := by
  refine ⟨by decide, by decide⟩

/-! ## Claim C6 -/

/-- Three sections of which the middle has no title. -/
def c6Epub : Epub :=
  (addTopSection (addTopSection (addTopSection (newEpub "T")
    "x" "A" "a.xhtml" "").2 "x" "" "b.xhtml" "").2 "x" "C" "c.xhtml" "").2

/-- C6 counterexample: the untitled middle section emits no NCX node but
still consumes an index, so the two emitted nodes carry ids `navPoint-0`
and `navPoint-2` instead of the consecutive `navPoint-0`, `navPoint-1`
required by "increments exactly once per emitted node". -/
theorem C6_counterexample :
    (writeTo c6Epub mtConst).toc.ncxNavMap.map (·.id) = ["navPoint-0", "navPoint-2"] ∧
    (["navPoint-0", "navPoint-2"] : List String) ≠ ["navPoint-0", "navPoint-1"] := by
  refine ⟨by decide, by decide⟩

/-- The id rendered for NCX node index `i`. -/
def mkNavPointId (i : Nat) : String := "navPoint-" ++ itoa i

/-- Amended-specification index sequence: the counter consumes one unit per
top-level section — whether or not that section emits a navigation node —
plus one unit per child of each navigated section; a navigated section
emits its own index followed by its children's. -/
def specNcxIndices (cover : String) : List Section → Nat → List Nat
  | [], _ => []
  | s :: ss, c =>
    if s.xhtml.title ≠ "" ∧ s.filename ≠ cover then
      (c :: List.range' (c + 1) (s.children.getD []).length) ++
        specNcxIndices cover ss (c + (s.children.getD []).length + 1)
    else specNcxIndices cover ss (c + 1)

/-- How far one pass of the section loop advances the index counter. -/
def indexWeight (cover : String) : List Section → Nat
  | [] => 0
  | s :: ss =>
    (if s.xhtml.title ≠ "" ∧ s.filename ≠ cover then (s.children.getD []).length + 1 else 1) +
      indexWeight cover ss

/-- The NCX side of `toc.addSubSection` always appends at top level: its
nesting guard `parentNcxIndex > len(NavMap)` can never hold. -/
theorem addSubSection_ncxNavMap (t : Toc) (parent : String) (index : Nat)
    (title rel : String) :
    (t.addSubSection parent index title rel).ncxNavMap =
      t.ncxNavMap ++ [⟨"navPoint-" ++ itoa index, title, rel, none⟩] := by
  have hle : ¬((lastMatchIdx t.ncxNavMap fun q => q.src == parent).getD 0 > t.ncxNavMap.length) := by
    cases hidx : lastMatchIdx t.ncxNavMap fun q => q.src == parent with
    | some j =>
      have := lastMatchIdx_lt hidx
      simp only [Option.getD_some]
      omega
    | none => simp [Option.getD_none]
  simp only [Toc.addSubSection]
  rw [if_neg hle]

theorem childFold_ncx (rel : String) :
    ∀ (cs : List SubSection) (a : WriteAcc),
      ((cs.foldl (writeChildStep rel) a).toc.ncxNavMap).map (·.id) =
        (a.toc.ncxNavMap).map (·.id) ++ (List.range' (a.index + 1) cs.length).map mkNavPointId ∧
      (cs.foldl (writeChildStep rel) a).index = a.index + cs.length := by
  intro cs
  induction cs with
  | nil => intro a; exact ⟨by simp, by simp⟩
  | cons c t ih =>
    intro a
    obtain ⟨h1, h2⟩ := ih (writeChildStep rel a c)
    constructor
    · show ((t.foldl (writeChildStep rel) (writeChildStep rel a c)).toc.ncxNavMap).map (·.id) = _
      rw [h1]
      show ((a.toc.addSubSection rel (a.index + 1) c.xhtml.title
        ("xhtml/" ++ c.filename)).ncxNavMap).map (·.id) ++
          (List.range' ((writeChildStep rel a c).index + 1) t.length).map mkNavPointId = _
      rw [addSubSection_ncxNavMap]
      simp [mkNavPointId, List.range'_succ, List.append_assoc, writeChildStep]
    · show (t.foldl (writeChildStep rel) (writeChildStep rel a c)).index = _
      rw [h2]
      show a.index + 1 + t.length = _
      rw [List.length_cons]
      omega

theorem writeOneSection_ncx (T C : String) (acc : WriteAcc) (s : Section) :
    ((writeOneSection T C acc s).toc.ncxNavMap).map (·.id) =
      (acc.toc.ncxNavMap).map (·.id) ++
        (if s.xhtml.title ≠ "" ∧ s.filename ≠ C then
          (acc.index :: List.range' (acc.index + 1) (s.children.getD []).length).map mkNavPointId
         else []) ∧
    (writeOneSection T C acc s).index =
      acc.index +
        (if s.xhtml.title ≠ "" ∧ s.filename ≠ C then (s.children.getD []).length + 1 else 1) := by
  simp only [writeOneSection]
  by_cases hcov : s.filename = C
  · have hcov' : (s.filename == C) = true := beq_iff_eq.mpr hcov
    have hnT : ¬(s.xhtml.title ≠ "" ∧ s.filename ≠ C) := fun hcon => hcon.2 hcov
    rw [if_neg hnT, if_neg hnT]
    rw [if_pos hcov', if_pos hcov']
    rw [if_neg (fun hcon => hcon.2 hcov)]
    exact ⟨by simp, by simp⟩
  · have hncov : ¬((s.filename == C) = true) := by
      simp [beq_eq_false_iff_ne.mpr hcov]
    rw [if_neg hncov, if_neg hncov]
    by_cases hT : (s.xhtml.title ≠ "" ∧ s.filename ≠ C)
    · rw [if_pos hT, if_pos hT, if_pos hT]
      cases hch : s.children with
      | none =>
        constructor
        · show ((acc.toc.addSection acc.index s.xhtml.title
            ("xhtml/" ++ s.filename)).ncxNavMap).map (·.id) = _
          simp [Toc.addSection, mkNavPointId]
        · simp
      | some cs =>
        obtain ⟨h1, h2⟩ := childFold_ncx ("xhtml/" ++ s.filename) cs
          { pkg := (acc.pkg.addToSpine s.filename).addToManifest s.filename
              ("xhtml/" ++ s.filename) mediaTypeXhtml ""
            toc := acc.toc.addSection acc.index s.xhtml.title ("xhtml/" ++ s.filename)
            files := acc.files ++ ["EPUB/xhtml/" ++ s.filename]
            index := acc.index }
        constructor
        · show ((cs.foldl (writeChildStep ("xhtml/" ++ s.filename)) _).toc.ncxNavMap).map (·.id) = _
          rw [h1]
          show ((acc.toc.addSection acc.index s.xhtml.title
            ("xhtml/" ++ s.filename)).ncxNavMap).map (·.id) ++ _ = _
          simp [Toc.addSection, mkNavPointId, List.append_assoc]
        · show (cs.foldl (writeChildStep ("xhtml/" ++ s.filename)) _).index + 1 = _
          rw [h2]
          simp
          omega
    · rw [if_neg hT, if_neg hT, if_neg hT]
      exact ⟨by simp, by simp⟩

theorem sectionsFold_ncx (T C : String) :
    ∀ (secs : List Section) (acc : WriteAcc),
      ((secs.foldl (writeOneSection T C) acc).toc.ncxNavMap).map (·.id) =
        (acc.toc.ncxNavMap).map (·.id) ++
          (specNcxIndices C secs acc.index).map mkNavPointId ∧
      (secs.foldl (writeOneSection T C) acc).index = acc.index + indexWeight C secs := by
  intro secs
  induction secs with
  | nil => intro acc; exact ⟨by simp [specNcxIndices], by simp [indexWeight]⟩
  | cons s t ih =>
    intro acc
    obtain ⟨g1, g2⟩ := writeOneSection_ncx T C acc s
    obtain ⟨h1, h2⟩ := ih (writeOneSection T C acc s)
    constructor
    · show ((t.foldl (writeOneSection T C) (writeOneSection T C acc s)).toc.ncxNavMap).map (·.id) = _
      rw [h1, g1, g2, specNcxIndices]
      by_cases hT : (s.xhtml.title ≠ "" ∧ s.filename ≠ C)
      · rw [if_pos hT, if_pos hT, if_pos hT]
        rw [show acc.index + ((s.children.getD []).length + 1) =
          acc.index + (s.children.getD []).length + 1 from by omega]
        simp [List.append_assoc]
      · rw [if_neg hT, if_neg hT, if_neg hT]
        simp
    · show (t.foldl (writeOneSection T C) (writeOneSection T C acc s)).index = _
      rw [h2, g2, indexWeight]
      omega

/-- C6 amended: the legacy NCX ids are `navPoint-<i>` where the counter
advances once per processed top-level section — including the cover and
sections with empty titles, which emit no node but still consume an index —
and once per emitted subsection of each navigated section; children of
non-navigated sections are skipped entirely and consume nothing. -/
theorem C6_amended (e : Epub) (mt : String → String) :
    (writeTo e mt).toc.ncxNavMap.map (·.id) =
      (specNcxIndices e.cover.xhtmlFilename e.sections 0).map mkNavPointId := by
  simp only [writeTo, writeMedia_eq, writeSections]
  by_cases hne : e.sections.isEmpty = true
  · rw [if_pos hne, List.isEmpty_iff.mp hne]
    rfl
  · rw [if_neg hne]
    have h := fun (acc : WriteAcc) =>
      (sectionsFold_ncx e.title e.cover.xhtmlFilename e.sections acc).1
    rw [h]
    simp

/-! ## `SetCover` inversion lemmas -/

theorem addCSS_inv (X : Epub) (ck : Bool) (s f : String) :
    (addCSS X ck s f).2.images = X.images ∧ (addCSS X ck s f).2.sections = X.sections ∧
    (addCSS X ck s f).2.fonts = X.fonts ∧ (addCSS X ck s f).2.videos = X.videos ∧
    (addCSS X ck s f).2.cover = X.cover :=
  ⟨rfl, rfl, rfl, rfl, rfl⟩

theorem addSection_inv (X : Epub) (pf b t f c : String) :
    (addSection X pf b t f c).2.images = X.images ∧
    (addSection X pf b t f c).2.css = X.css ∧
    (addSection X pf b t f c).2.fonts = X.fonts ∧
    (addSection X pf b t f c).2.videos = X.videos ∧
    (addSection X pf b t f c).2.cover = X.cover := by
  unfold addSection addSectionCore
  repeat' split
  all_goals exact ⟨rfl, rfl, rfl, rfl, rfl⟩

theorem setCoverCSSStep_inv (e1 : Epub) (c p : String) (e' : Epub)
    (h : setCoverCSSStep e1 c = some (p, e')) :
    e'.images = e1.images ∧ e'.sections = e1.sections ∧
    e'.fonts = e1.fonts ∧ e'.videos = e1.videos := by
  unfold setCoverCSSStep at h
  by_cases hc : c = ""
  · rw [if_pos hc] at h
    rcases hm : addCSS { e1 with cover := { e1.cover with cssTempFile := defaultCoverCSSTempSource } }
        true defaultCoverCSSTempSource defaultCoverCSSFilename with ⟨r, eA⟩
    rw [hm] at h
    have heA : eA.images = e1.images ∧ eA.sections = e1.sections ∧
        eA.fonts = e1.fonts ∧ eA.videos = e1.videos := by
      have := addCSS_inv { e1 with cover := { e1.cover with cssTempFile := defaultCoverCSSTempSource } }
        true defaultCoverCSSTempSource defaultCoverCSSFilename
      rw [hm] at this
      exact ⟨this.1, this.2.1, this.2.2.1, this.2.2.2.1⟩
    cases r with
    | ok q =>
      simp only [Option.some.injEq, Prod.mk.injEq] at h
      rw [← h.2]
      exact heA
    | error err =>
      cases err with
      | filenameAlreadyUsed fn =>
        dsimp only at h
        rcases hm2 : addCSS eA true defaultCoverCSSTempSource
            (mediaFormatName "css" (eA.css.length + 1) ".css") with ⟨r2, eB⟩
        rw [hm2] at h
        have heB : eB.images = eA.images ∧ eB.sections = eA.sections ∧
            eB.fonts = eA.fonts ∧ eB.videos = eA.videos := by
          have := addCSS_inv eA true defaultCoverCSSTempSource
            (mediaFormatName "css" (eA.css.length + 1) ".css")
          rw [hm2] at this
          exact ⟨this.1, this.2.1, this.2.2.1, this.2.2.2.1⟩
        cases r2 with
        | ok q =>
          simp only [Option.some.injEq, Prod.mk.injEq] at h
          rw [← h.2]
          exact ⟨heB.1.trans heA.1, heB.2.1.trans heA.2.1,
            heB.2.2.1.trans heA.2.2.1, heB.2.2.2.trans heA.2.2.2⟩
        | error e2 => simp at h
      | parentDoesNotExist fn => simp at h
      | fileRetrieval src => simp at h
  · rw [if_neg hc] at h
    simp only [Option.some.injEq, Prod.mk.injEq] at h
    rw [← h.2]
    exact ⟨rfl, rfl, rfl, rfl⟩

theorem setCoverSectionStep_inv (e3 : Epub) (b c p : String) (e4 : Epub)
    (h : setCoverSectionStep e3 b c = some (p, e4)) :
    e4.images = e3.images ∧ e4.css = e3.css ∧
    e4.fonts = e3.fonts ∧ e4.videos = e3.videos := by
  unfold setCoverSectionStep at h
  rcases hm : addTopSection e3 b "" defaultCoverXhtmlFilename c with ⟨r, eA⟩
  rw [hm] at h
  have heA : eA.images = e3.images ∧ eA.css = e3.css ∧
      eA.fonts = e3.fonts ∧ eA.videos = e3.videos := by
    have := addSection_inv e3 "" b "" defaultCoverXhtmlFilename c
    rw [show addSection e3 "" b "" defaultCoverXhtmlFilename c =
      addTopSection e3 b "" defaultCoverXhtmlFilename c from rfl, hm] at this
    exact ⟨this.1, this.2.1, this.2.2.1, this.2.2.2.1⟩
  cases r with
  | ok q =>
    simp only [Option.some.injEq, Prod.mk.injEq] at h
    rw [← h.2]
    exact heA
  | error err =>
    cases err with
    | filenameAlreadyUsed fn =>
      dsimp only at h
      rcases hm2 : addTopSection e3 b "" "" c with ⟨r2, eB⟩
      rw [hm2] at h
      have heB : eB.images = e3.images ∧ eB.css = e3.css ∧
          eB.fonts = e3.fonts ∧ eB.videos = e3.videos := by
        have := addSection_inv e3 "" b "" "" c
        rw [show addSection e3 "" b "" "" c = addTopSection e3 b "" "" c from rfl, hm2] at this
        exact ⟨this.1, this.2.1, this.2.2.1, this.2.2.2.1⟩
      cases r2 with
      | ok q =>
        simp only [Option.some.injEq, Prod.mk.injEq] at h
        rw [← h.2]
        exact heB
      | error e2 => simp at h
    | parentDoesNotExist fn => simp at h
    | fileRetrieval src => simp at h

/-- Core of C10: after a `SetCover` that replaces an existing cover, the
image registry is the previous one with the previous cover image deleted,
and the recorded cover image is the base name of the supplied path —
`SetCover` never re-registers it. -/
theorem setCover_some_facts (e : Epub) (p c : String) (e₂ : Epub)
    (hcov : e.cover.xhtmlFilename ≠ "") (hset : setCover e p c = some e₂) :
    e₂.images = eraseKey e.images e.cover.imageFilename ∧
    e₂.cover.imageFilename = goBase p := by
  unfold setCover at hset
  cases h1 : setCoverCSSStep (setCoverRemoveOld e) c with
  | none => rw [h1] at hset; simp at hset
  | some pe =>
    rw [h1] at hset
    obtain ⟨cssPath, e3⟩ := pe
    dsimp only at hset
    cases h2 : setCoverSectionStep e3 (coverBodyFor p) cssPath with
    | none => rw [h2] at hset; simp at hset
    | some pe2 =>
      rw [h2] at hset
      obtain ⟨coverPath, e4⟩ := pe2
      simp only [Option.some.injEq] at hset
      subst hset
      have i1 := (setCoverCSSStep_inv _ _ _ _ h1).1
      have i2 := (setCoverSectionStep_inv _ _ _ _ _ h2).1
      refine ⟨?_, rfl⟩
      show e4.images = _
      rw [i2, i1]
      show (setCoverRemoveOld e).images = _
      unfold setCoverRemoveOld
      rw [if_pos hcov]

/-! ## Full decomposition of a serialization pass -/

theorem writeTo_decomp (e : Epub) (mt : String → String) (hne : e.sections ≠ []) :
    ∃ mfS spS flS,
      (writeTo e mt).pkg.manifest =
        e.css.map (mediaItemOf e.cover.imageFilename mt CSSFolderName) ++
        (e.fonts.map (mediaItemOf e.cover.imageFilename mt FontFolderName) ++
        (e.images.map (mediaItemOf e.cover.imageFilename mt ImageFolderName) ++
        (e.videos.map (mediaItemOf e.cover.imageFilename mt VideoFolderName) ++
        (mfS ++
        [⟨tocNavItemID, tocNavFilename, mediaTypeXhtml, tocNavItemProperties⟩,
          ⟨tocNcxItemID, tocNcxFilename, mediaTypeNcx, ""⟩])))) ∧
      (writeTo e mt).pkg.spine =
        (if e.cover.xhtmlFilename ≠ "" then [e.cover.xhtmlFilename] else []) ++ spS ∧
      (writeTo e mt).files =
        "mimetype" :: "META-INF/container.xml" ::
        (e.css.map (fun q => "EPUB/" ++ CSSFolderName ++ "/" ++ q.1) ++
        (e.fonts.map (fun q => "EPUB/" ++ FontFolderName ++ "/" ++ q.1) ++
        (e.images.map (fun q => "EPUB/" ++ ImageFolderName ++ "/" ++ q.1) ++
        (e.videos.map (fun q => "EPUB/" ++ VideoFolderName ++ "/" ++ q.1) ++
        (flS ++ ["EPUB/" ++ tocNavFilename, "EPUB/" ++ tocNcxFilename, "EPUB/package.opf"]))))) ∧
      (∀ it ∈ mfS, ∃ n ∈ allNames e.sections, it = ⟨n, "xhtml/" ++ n, mediaTypeXhtml, ""⟩) ∧
      (∀ x ∈ spS, x ∈ allNames e.sections) ∧
      (∀ f ∈ flS, ∃ n ∈ allNames e.sections, f = "EPUB/xhtml/" ++ n) := by
  simp only [writeTo, writeMedia_eq]
  obtain ⟨sp, mf, fl, h1, h2, h3, h4, h5, h6⟩ :=
    writeSections_extend e
      ⟨[] ++ e.css.map (mediaItemOf e.cover.imageFilename mt CSSFolderName) ++
        e.fonts.map (mediaItemOf e.cover.imageFilename mt FontFolderName) ++
        e.images.map (mediaItemOf e.cover.imageFilename mt ImageFolderName) ++
        e.videos.map (mediaItemOf e.cover.imageFilename mt VideoFolderName), []⟩
      ⟨[], []⟩
      (["mimetype", "META-INF/container.xml"] ++
        e.css.map (fun q => "EPUB/" ++ CSSFolderName ++ "/" ++ q.1) ++
        e.fonts.map (fun q => "EPUB/" ++ FontFolderName ++ "/" ++ q.1) ++
        e.images.map (fun q => "EPUB/" ++ ImageFolderName ++ "/" ++ q.1) ++
        e.videos.map (fun q => "EPUB/" ++ VideoFolderName ++ "/" ++ q.1)) hne
  refine ⟨mf, sp, fl, ?_, ?_, ?_, h5, h4, h6⟩
  · show (((writeSections e _ _ _).1.addToManifest tocNavItemID tocNavFilename mediaTypeXhtml
      tocNavItemProperties).addToManifest tocNcxItemID tocNcxFilename mediaTypeNcx "").manifest = _
    simp only [Pkg.addToManifest]
    rw [h2]
    simp [List.append_assoc]
  · show (((writeSections e _ _ _).1.addToManifest tocNavItemID tocNavFilename mediaTypeXhtml
      tocNavItemProperties).addToManifest tocNcxItemID tocNcxFilename mediaTypeNcx "").spine = _
    simp only [Pkg.addToManifest]
    rw [h1]
    simp
  · show ((writeSections e _ _ _).2.2 ++ ["EPUB/" ++ tocNavFilename, "EPUB/" ++ tocNcxFilename]) ++
      ["EPUB/package.opf"] = _
    rw [h3]
    simp [List.append_assoc]

/-! ## String-inequality and counting helpers -/

theorem str_ne_of_get {s t : String} (i : Nat) {c c' : Char}
    (hs : s.data.get? i = some c) (ht : t.data.get? i = some c') (hcc : c ≠ c') :
    s ≠ t := by
  intro he
  rw [he] at hs
  rw [hs] at ht
  exact hcc (Option.some.inj ht)

theorem append_get?_left (q b : String) (i : Nat) (h : i < q.data.length) :
    (q ++ b).data.get? i = q.data.get? i := by
  rw [String.data_append]
  exact List.get?_append h

theorem str_append_right_ne (q : String) {a b : String} (h : a ≠ b) : q ++ a ≠ q ++ b := by
  intro he
  apply h
  have hd := congrArg String.data he
  rw [String.data_append, String.data_append] at hd
  exact String.ext (List.append_cancel_left hd)

def countKeys (m : MediaMap) (k : String) : Nat := m.countP fun p => p.1 == k

def coverFlagCount (w : WriteOut) : Nat :=
  w.pkg.manifest.countP fun it => it.properties == coverImageProperties

theorem flagged_mediaItemOf (cov : String) (mt : String → String) (f : String)
    (x : String × String) :
    ((mediaItemOf cov mt f x).properties == coverImageProperties) = (x.1 == cov) := by
  by_cases h : (x.1 == cov) = true <;> simp [mediaItemOf, h, coverImageProperties]

theorem countP_map_mediaItem (cov : String) (mt : String → String) (f : String) (m : MediaMap) :
    ((m.map (mediaItemOf cov mt f)).countP fun it => it.properties == coverImageProperties) =
      countKeys m cov := by
  rw [List.countP_map]
  apply List.countP_congr
  intro x _
  show ((mediaItemOf cov mt f x).properties == coverImageProperties) = true ↔ (x.1 == cov) = true
  rw [flagged_mediaItemOf]

theorem countKeys_not_mem (m : MediaMap) (k : String) (h : k ∉ mediaKeys m) :
    countKeys m k = 0 := by
  apply List.countP_eq_zero.mpr
  intro p hp hpk
  exact h (List.mem_map.mpr ⟨p, hp, beq_iff_eq.mp hpk⟩)

theorem countKeys_erase_ne (m : MediaMap) (k old : String) (hk : k ≠ old) :
    countKeys (eraseKey m old) k = countKeys m k := by
  induction m with
  | nil => rfl
  | cons p t ih =>
    by_cases hp : p.1 = old
    · have hbk : (p.1 == k) = false :=
        beq_eq_false_iff_ne.mpr (by rw [hp]; exact fun he => hk he.symm)
      show countKeys (List.filter _ (p :: t)) k = countKeys (p :: t) k
      rw [List.filter_cons, if_neg (by simp [hp])]
      show countKeys (eraseKey t old) k = _
      rw [ih]
      show countKeys t k = List.countP _ (p :: t)
      rw [List.countP_cons, hbk]
      simp [countKeys]
    · show countKeys (List.filter _ (p :: t)) k = countKeys (p :: t) k
      rw [List.filter_cons, if_pos (by simp [hp])]
      show List.countP _ (p :: eraseKey t old) = List.countP _ (p :: t)
      rw [List.countP_cons, List.countP_cons]
      show countKeys (eraseKey t old) k + _ = countKeys t k + _
      rw [ih]

theorem countKeys_nodup_mem (m : MediaMap) (k : String)
    (hnd : (mediaKeys m).Nodup) (hmem : k ∈ mediaKeys m) : countKeys m k = 1 := by
  induction m with
  | nil => simp [mediaKeys] at hmem
  | cons p t ih =>
    simp only [mediaKeys, List.map_cons, List.nodup_cons] at hnd
    simp only [mediaKeys, List.map_cons, List.mem_cons] at hmem
    show List.countP _ (p :: t) = 1
    rw [List.countP_cons]
    rcases hmem with rfl | hmem
    · have h0 : countKeys t p.1 = 0 := countKeys_not_mem t p.1 hnd.1
      show countKeys t p.1 + _ = 1
      rw [h0]
      simp
    · have h1 : countKeys t k = 1 := ih hnd.2 hmem
      have hb : (p.1 == k) = false :=
        beq_eq_false_iff_ne.mpr fun he => hnd.1 (by rw [he]; exact hmem)
      show countKeys t k + _ = 1
      rw [h1, hb]
      simp

/-! ## `SetCover` leaves a non-empty section list -/

theorem addSectionCore_ok_ne (X : Epub) (pf b t c fn : String) (r : String)
    (h : (addSectionCore X pf b t c fn).1 = .ok r) :
    (addSectionCore X pf b t c fn).2.sections ≠ [] := by
  unfold addSectionCore at h ⊢
  by_cases hpe : pf ≠ "" ∧ lastMatchIdx X.sections (fun s => s.filename == pf) = none
  · rw [if_pos hpe] at h
    simp at h
  · rw [if_neg hpe] at h ⊢
    cases hidx : lastMatchIdx X.sections fun s => s.filename == pf with
    | some i =>
      have hlt := lastMatchIdx_lt hidx
      show addChildAt X.sections i _ ≠ []
      cases hsec : X.sections with
      | nil => rw [hsec] at hlt; simp at hlt
      | cons a u => cases i <;> simp [addChildAt]
    | none =>
      show X.sections ++ [_] ≠ []
      simp

theorem setCoverSectionStep_sections_ne (e3 : Epub) (b c p : String) (e4 : Epub)
    (h : setCoverSectionStep e3 b c = some (p, e4)) : e4.sections ≠ [] := by
  unfold setCoverSectionStep at h
  rcases hm : addTopSection e3 b "" defaultCoverXhtmlFilename c with ⟨r, eA⟩
  rw [hm] at h
  cases r with
  | ok q =>
    simp only [Option.some.injEq, Prod.mk.injEq] at h
    rw [← h.2]
    have hm' : addSection e3 "" b "" defaultCoverXhtmlFilename c = (.ok q, eA) := hm
    unfold addSection at hm'
    rw [if_neg (by decide : ¬(defaultCoverXhtmlFilename = ""))] at hm'
    by_cases htk : sectionNameTaken e3.sections defaultCoverXhtmlFilename = true
    · rw [if_pos htk] at hm'
      exact absurd (congrArg Prod.fst hm') (by simp)
    · rw [if_neg htk] at hm'
      have hne := addSectionCore_ok_ne e3 "" b "" c defaultCoverXhtmlFilename q
        (by rw [hm'])
      rw [hm'] at hne
      exact hne
  | error err =>
    cases err with
    | filenameAlreadyUsed fn =>
      dsimp only at h
      rcases hm2 : addTopSection e3 b "" "" c with ⟨r2, eB⟩
      rw [hm2] at h
      cases r2 with
      | ok q =>
        simp only [Option.some.injEq, Prod.mk.injEq] at h
        rw [← h.2]
        have hm2' : addSection e3 "" b "" "" c = (.ok q, eB) := hm2
        unfold addSection at hm2'
        rw [if_pos rfl] at hm2'
        have hne := addSectionCore_ok_ne e3 "" b "" c
          (genSectionFilename (allNames e3.sections)) q (by rw [hm2'])
        rw [hm2'] at hne
        exact hne
      | error e2 => simp at h
    | parentDoesNotExist fn => simp at h
    | fileRetrieval src => simp at h

theorem setCover_sections_ne (e : Epub) (p c : String) (e₂ : Epub)
    (hset : setCover e p c = some e₂) : e₂.sections ≠ [] := by
  unfold setCover at hset
  cases h1 : setCoverCSSStep (setCoverRemoveOld e) c with
  | none => rw [h1] at hset; simp at hset
  | some pe =>
    rw [h1] at hset
    obtain ⟨cssPath, e3⟩ := pe
    dsimp only at hset
    cases h2 : setCoverSectionStep e3 (coverBodyFor p) cssPath with
    | none => rw [h2] at hset; simp at hset
    | some pe2 =>
      rw [h2] at hset
      obtain ⟨coverPath, e4⟩ := pe2
      simp only [Option.some.injEq] at hset
      subst hset
      show e4.sections ≠ []
      exact setCoverSectionStep_sections_ne e3 _ _ _ _ h2

theorem not_mem_keys_eraseKey (m : MediaMap) (k : String) :
    k ∉ mediaKeys (eraseKey m k) := by
  intro hc
  rcases List.mem_map.mp hc with ⟨q, hq, hq1⟩
  have h2 := (List.mem_filter.mp hq).2
  exact of_decide_eq_true h2 hq1

/-! ## Claim C10 -/

/-- C10: when `SetCover` replaces a cover with an image path whose base
name equals the current cover image's filename, the removal step deletes
that filename from the image registry and the new cover records it without
re-registering it; afterwards the image registry does not contain the
cover image and serialization stages no file (and the archive carries no
entry) under `images/<cover image>`. -/
theorem C10_stale_cover_image (e : Epub) (p c : String) (e₂ : Epub) (mt : String → String)
    (hcov : e.cover.xhtmlFilename ≠ "")
    (hbase : goBase p = e.cover.imageFilename)
    (hset : setCover e p c = some e₂) :
    e₂.cover.imageFilename = goBase p ∧
    goBase p ∉ mediaKeys e₂.images ∧
    (∀ f ∈ (writeTo e₂ mt).files,
      f ≠ "EPUB/" ++ ImageFolderName ++ "/" ++ e₂.cover.imageFilename) ∧
    (∀ z ∈ writeZipOf e₂ mt,
      z.name ≠ "EPUB/" ++ ImageFolderName ++ "/" ++ e₂.cover.imageFilename) := by
  obtain ⟨hImg, hCov⟩ := setCover_some_facts e p c e₂ hcov hset
  have hne := setCover_sections_ne e p c e₂ hset
  have hnotmem : goBase p ∉ mediaKeys e₂.images := by
    rw [hImg, hbase]
    exact not_mem_keys_eraseKey e.images e.cover.imageFilename
  have hT5 : ("EPUB/" ++ ImageFolderName ++ "/" ++ e₂.cover.imageFilename).data.get? 5 =
      some 'i' := by
    rw [append_get?_left ("EPUB/" ++ ImageFolderName ++ "/") _ 5 (by decide)]
    decide
  have hT0 : ("EPUB/" ++ ImageFolderName ++ "/" ++ e₂.cover.imageFilename).data.get? 0 =
      some 'E' := by
    rw [append_get?_left ("EPUB/" ++ ImageFolderName ++ "/") _ 0 (by decide)]
    decide
  have hfilesNe : ∀ f ∈ (writeTo e₂ mt).files,
      f ≠ "EPUB/" ++ ImageFolderName ++ "/" ++ e₂.cover.imageFilename := by
    obtain ⟨mfS, spS, flS, hman, hspine, hfiles, hmf, hsp, hfl⟩ := writeTo_decomp e₂ mt hne
    rw [hfiles]
    intro f hf
    simp only [List.mem_cons, List.mem_append, List.mem_map] at hf
    simp only [List.not_mem_nil, or_false] at hf
    rcases hf with rfl | rfl | ⟨q, hq, rfl⟩ | ⟨q, hq, rfl⟩ | ⟨q, hq, rfl⟩ | ⟨q, hq, rfl⟩ |
      hfS | rfl | rfl | rfl
    · exact str_ne_of_get 0
        (show ("mimetype" : String).data.get? 0 = some 'm' by decide) hT0 (by decide)
    · exact str_ne_of_get 0
        (show ("META-INF/container.xml" : String).data.get? 0 = some 'M' by decide)
        hT0 (by decide)
    · exact str_ne_of_get 5
        (show ("EPUB/" ++ CSSFolderName ++ "/" ++ q.1).data.get? 5 = some 'c' by
          rw [append_get?_left ("EPUB/" ++ CSSFolderName ++ "/") _ 5 (by decide)]; decide)
        hT5 (by decide)
    · exact str_ne_of_get 5
        (show ("EPUB/" ++ FontFolderName ++ "/" ++ q.1).data.get? 5 = some 'f' by
          rw [append_get?_left ("EPUB/" ++ FontFolderName ++ "/") _ 5 (by decide)]; decide)
        hT5 (by decide)
    · refine str_append_right_ne ("EPUB/" ++ ImageFolderName ++ "/") ?_
      intro heq
      exact hnotmem (hCov ▸ heq ▸ List.mem_map.mpr ⟨q, hq, rfl⟩)
    · exact str_ne_of_get 5
        (show ("EPUB/" ++ VideoFolderName ++ "/" ++ q.1).data.get? 5 = some 'v' by
          rw [append_get?_left ("EPUB/" ++ VideoFolderName ++ "/") _ 5 (by decide)]; decide)
        hT5 (by decide)
    · obtain ⟨n, hn, rfl⟩ := hfl f hfS
      exact str_ne_of_get 5
        (show ("EPUB/xhtml/" ++ n).data.get? 5 = some 'x' by
          rw [append_get?_left "EPUB/xhtml/" _ 5 (by decide)]; decide)
        hT5 (by decide)
    · exact str_ne_of_get 5
        (show ("EPUB/" ++ tocNavFilename).data.get? 5 = some 'n' by decide) hT5 (by decide)
    · exact str_ne_of_get 5
        (show ("EPUB/" ++ tocNcxFilename).data.get? 5 = some 't' by decide) hT5 (by decide)
    · exact str_ne_of_get 5
        (show ("EPUB/package.opf" : String).data.get? 5 = some 'p' by decide) hT5 (by decide)
  refine ⟨hCov, hnotmem, hfilesNe, ?_⟩
  intro z hz
  rcases List.mem_cons.mp hz with rfl | hz'
  · exact str_ne_of_get 0
      (show ("mimetype" : String).data.get? 0 = some 'm' by decide) hT0 (by decide)
  · rcases List.mem_filterMap.mp hz' with ⟨pn, hpn, hpz⟩
    by_cases hm : pn = "mimetype"
    · subst hm
      rw [if_pos (by decide)] at hpz
      exact Option.noConfusion hpz
    · have hb : (pn == "mimetype") = false := beq_eq_false_iff_ne.mpr hm
      rw [hb, if_neg (by decide)] at hpz
      obtain rfl := Option.some.inj hpz
      exact hfilesNe pn ((mem_sortStrings pn _).mp hpn)

theorem nodup_keys_eraseKey (m : MediaMap) (k : String)
    (h : (mediaKeys m).Nodup) : (mediaKeys (eraseKey m k)).Nodup :=
  h.sublist (List.Sublist.map _ (List.filter_sublist m))

theorem setCoverCSSStep_ne_empty (e1 : Epub) (c : String) (hc : c ≠ "") :
    setCoverCSSStep e1 c = some (c, e1) := by
  unfold setCoverCSSStep
  rw [if_neg hc]

theorem addSectionCore_top_shape (X : Epub) (b t c fn : String)
    (hnone : lastMatchIdx X.sections (fun s => s.filename == "") = none) :
    addSectionCore X "" b t c fn =
      (.ok fn, { X with sections := X.sections ++ [⟨fn, mkSectionXhtml b t c, none⟩] }) := by
  unfold addSectionCore
  rw [if_neg (fun hcon => hcon.1 rfl), hnone]

theorem setCoverSectionStep_shape (e3 : Epub) (b c p : String) (e4 : Epub)
    (hnone : lastMatchIdx e3.sections (fun s => s.filename == "") = none)
    (h : setCoverSectionStep e3 b c = some (p, e4)) :
    ∃ fn, e4.sections = e3.sections ++ [⟨fn, mkSectionXhtml b "" c, none⟩] := by
  unfold setCoverSectionStep at h
  by_cases htk : sectionNameTaken e3.sections defaultCoverXhtmlFilename = true
  · have h1 : addTopSection e3 b "" defaultCoverXhtmlFilename c =
        (.error (.filenameAlreadyUsed defaultCoverXhtmlFilename), e3) := by
      show addSection e3 "" b "" defaultCoverXhtmlFilename c = _
      unfold addSection
      rw [if_neg (by decide : ¬(defaultCoverXhtmlFilename = "")), if_pos htk]
    rw [h1] at h
    dsimp only at h
    have h2 : addTopSection e3 b "" "" c =
        (.ok (genSectionFilename (allNames e3.sections)),
          { e3 with sections := e3.sections ++
            [⟨genSectionFilename (allNames e3.sections), mkSectionXhtml b "" c, none⟩] }) := by
      show addSection e3 "" b "" "" c = _
      unfold addSection
      rw [if_pos rfl]
      exact addSectionCore_top_shape e3 b "" c _ hnone
    rw [h2] at h
    dsimp only at h
    simp only [Option.some.injEq, Prod.mk.injEq] at h
    exact ⟨genSectionFilename (allNames e3.sections), by rw [← h.2]⟩
  · have h1 : addTopSection e3 b "" defaultCoverXhtmlFilename c =
        (.ok defaultCoverXhtmlFilename,
          { e3 with sections := e3.sections ++
            [⟨defaultCoverXhtmlFilename, mkSectionXhtml b "" c, none⟩] }) := by
      show addSection e3 "" b "" defaultCoverXhtmlFilename c = _
      unfold addSection
      rw [if_neg (by decide : ¬(defaultCoverXhtmlFilename = "")), if_neg htk]
      exact addSectionCore_top_shape e3 b "" c _ hnone
    rw [h1] at h
    dsimp only at h
    simp only [Option.some.injEq, Prod.mk.injEq] at h
    exact ⟨defaultCoverXhtmlFilename, by rw [← h.2]⟩

theorem setCover_shape (e : Epub) (p2 c2 : String) (e₂ : Epub)
    (hcov : e.cover.xhtmlFilename ≠ "") (hc2 : c2 ≠ "")
    (hnone : lastMatchIdx (removeFirstSection e.sections e.cover.xhtmlFilename)
      (fun s => s.filename == "") = none)
    (hset : setCover e p2 c2 = some e₂) :
    e₂.images = eraseKey e.images e.cover.imageFilename ∧
    e₂.css = eraseKey e.css e.cover.cssFilename ∧
    e₂.fonts = e.fonts ∧ e₂.videos = e.videos ∧
    e₂.cover.imageFilename = goBase p2 ∧
    ∃ fn, e₂.sections = removeFirstSection e.sections e.cover.xhtmlFilename ++
      [⟨fn, mkSectionXhtml (coverBodyFor p2) "" c2, none⟩] := by
  have hrem : setCoverRemoveOld e = { e with
      sections := removeFirstSection e.sections e.cover.xhtmlFilename,
      images := eraseKey e.images e.cover.imageFilename,
      css := eraseKey e.css e.cover.cssFilename } := by
    unfold setCoverRemoveOld
    rw [if_pos hcov]
  unfold setCover at hset
  rw [setCoverCSSStep_ne_empty (setCoverRemoveOld e) c2 hc2] at hset
  dsimp only at hset
  cases h2 : setCoverSectionStep (setCoverRemoveOld e) (coverBodyFor p2) c2 with
  | none =>
    rw [h2] at hset
    exact absurd hset (by simp)
  | some pe =>
    rw [h2] at hset
    obtain ⟨coverPath, e4⟩ := pe
    dsimp only at hset
    obtain rfl := Option.some.inj hset
    obtain ⟨hi, hc, hf, hv⟩ :=
      setCoverSectionStep_inv (setCoverRemoveOld e) (coverBodyFor p2) c2 coverPath e4 h2
    obtain ⟨fn, hs⟩ := setCoverSectionStep_shape (setCoverRemoveOld e) (coverBodyFor p2) c2
      coverPath e4 (by rw [hrem]; exact hnone) h2
    refine ⟨?_, ?_, ?_, ?_, rfl, fn, ?_⟩
    · show e4.images = _
      rw [hi, hrem]
    · show e4.css = _
      rw [hc, hrem]
    · show e4.fonts = _
      rw [hf, hrem]
    · show e4.videos = _
      rw [hv, hrem]
    · show e4.sections = _
      rw [hs, hrem]

theorem setCover_shape_general (e : Epub) (p2 c2 : String) (e₂ : Epub)
    (hcov : e.cover.xhtmlFilename ≠ "")
    (hnone : lastMatchIdx (removeFirstSection e.sections e.cover.xhtmlFilename)
      (fun s => s.filename == "") = none)
    (hset : setCover e p2 c2 = some e₂) :
    e₂.images = eraseKey e.images e.cover.imageFilename ∧
    e₂.fonts = e.fonts ∧ e₂.videos = e.videos ∧
    e₂.cover.imageFilename = goBase p2 ∧
    ∃ fn, allNames e₂.sections =
      allNames (removeFirstSection e.sections e.cover.xhtmlFilename) ++ [fn] := by
  have hrem : setCoverRemoveOld e = { e with
      sections := removeFirstSection e.sections e.cover.xhtmlFilename,
      images := eraseKey e.images e.cover.imageFilename,
      css := eraseKey e.css e.cover.cssFilename } := by
    unfold setCoverRemoveOld
    rw [if_pos hcov]
  unfold setCover at hset
  cases h1 : setCoverCSSStep (setCoverRemoveOld e) c2 with
  | none =>
    rw [h1] at hset
    exact absurd hset (by simp)
  | some pe =>
    rw [h1] at hset
    obtain ⟨cssPath, e3⟩ := pe
    dsimp only at hset
    cases h2 : setCoverSectionStep e3 (coverBodyFor p2) cssPath with
    | none =>
      rw [h2] at hset
      exact absurd hset (by simp)
    | some pe2 =>
      rw [h2] at hset
      obtain ⟨coverPath, e4⟩ := pe2
      dsimp only at hset
      obtain rfl := Option.some.inj hset
      obtain ⟨h3i, h3s, h3f, h3v⟩ := setCoverCSSStep_inv (setCoverRemoveOld e) c2 cssPath e3 h1
      obtain ⟨h4i, h4c, h4f, h4v⟩ :=
        setCoverSectionStep_inv e3 (coverBodyFor p2) cssPath coverPath e4 h2
      obtain ⟨fn, hs⟩ := setCoverSectionStep_shape e3 (coverBodyFor p2) cssPath coverPath e4
        (by rw [h3s, hrem]; exact hnone) h2
      refine ⟨?_, ?_, ?_, rfl, fn, ?_⟩
      · show e4.images = _
        rw [h4i, h3i, hrem]
      · show e4.fonts = _
        rw [h4f, h3f, hrem]
      · show e4.videos = _
        rw [h4v, h3v, hrem]
      · show allNames e4.sections = _
        rw [hs, allNames_append_single, h3s, hrem]

/-- A concrete book with one registered image and a cover already set on it. -/
def coverDemoPre : Epub :=
  (setCover ((addImage (newEpub "t") true "a.png" "img.png").2)
    "../images/img.png" "").getD (newEpub "")

/-- The same book after calling SetCover again with the same image base name. -/
def coverDemoSame : Epub := (setCover coverDemoPre "../images/img.png" "").getD (newEpub "")

theorem C10_stale_cover_image_witness :
    coverDemoSame.cover.imageFilename = goBase "../images/img.png" ∧
    goBase "../images/img.png" ∉ mediaKeys coverDemoSame.images ∧
    (∀ f ∈ (writeTo coverDemoSame (fun s => s)).files,
      f ≠ "EPUB/" ++ ImageFolderName ++ "/" ++ coverDemoSame.cover.imageFilename) ∧
    (∀ z ∈ writeZipOf coverDemoSame (fun s => s),
      z.name ≠ "EPUB/" ++ ImageFolderName ++ "/" ++ coverDemoSame.cover.imageFilename) :=
  C10_stale_cover_image coverDemoPre "../images/img.png" "" coverDemoSame (fun s => s)
    (by decide) (by decide) (by rfl)

/-! ## Claim C8 -/

/-- C8 counterexample: calling SetCover a second time with an image path
whose base name equals the current cover image's filename is a perfectly
legal second call, yet the subsequent serialization's manifest contains
zero cover-image-flagged entries, not exactly one: the removal step
deletes the image from the registry and the replacement is never
re-registered. -/
theorem C8_counterexample :
    coverDemoPre.cover.xhtmlFilename ≠ "" ∧
    setCover coverDemoPre "../images/img.png" "" = some coverDemoSame ∧
    coverFlagCount (writeTo coverDemoSame (fun s => s)) = 0 :=
  ⟨by decide, by rfl, by decide⟩

/-- C8 (amended): after a second `SetCover` whose replacement image is
still present in the registry once the old cover image has been removed
(in particular its base name differs from the old cover image's filename),
a subsequent serialization's manifest carries exactly one
cover-image-flagged entry and no entry under the old cover image's href,
and the section list is the old one with the old cover section removed and
exactly one new cover section appended; when the replacement stylesheet
path is explicitly supplied (non-empty), the manifest additionally has no
entry under the old cover style's href — with the default stylesheet the
replacement is re-registered under the old default name, so that style
href can persist. -/
theorem C8_second_cover (e : Epub) (p2 c2 : String) (e₂ : Epub) (mt : String → String)
    (hcov : e.cover.xhtmlFilename ≠ "")
    (hnone : lastMatchIdx (removeFirstSection e.sections e.cover.xhtmlFilename)
      (fun s => s.filename == "") = none)
    (hset : setCover e p2 c2 = some e₂)
    (himg : goBase p2 ∈ mediaKeys (eraseKey e.images e.cover.imageFilename))
    (hndi : (mediaKeys e.images).Nodup)
    (hncss : goBase p2 ∉ mediaKeys e₂.css)
    (hnfonts : goBase p2 ∉ mediaKeys e.fonts)
    (hnvideos : goBase p2 ∉ mediaKeys e.videos) :
    coverFlagCount (writeTo e₂ mt) = 1 ∧
    (∀ it ∈ (writeTo e₂ mt).pkg.manifest,
      it.href ≠ ImageFolderName ++ "/" ++ e.cover.imageFilename) ∧
    (c2 ≠ "" → ∀ it ∈ (writeTo e₂ mt).pkg.manifest,
      it.href ≠ CSSFolderName ++ "/" ++ e.cover.cssFilename) ∧
    (∃ fn, allNames e₂.sections =
      allNames (removeFirstSection e.sections e.cover.xhtmlFilename) ++ [fn]) := by
  obtain ⟨hI, hF, hV, hcov2, hSect⟩ := setCover_shape_general e p2 c2 e₂ hcov hnone hset
  have hne := setCover_sections_ne e p2 c2 e₂ hset
  obtain ⟨mfS, spS, flS, hman, hspine, hfiles, hmf, hsp, hfl⟩ := writeTo_decomp e₂ mt hne
  refine ⟨?_, ?_, ?_, hSect⟩
  · unfold coverFlagCount
    rw [hman, List.countP_append, List.countP_append, List.countP_append,
      List.countP_append, List.countP_append]
    rw [countP_map_mediaItem, countP_map_mediaItem, countP_map_mediaItem,
      countP_map_mediaItem]
    rw [hF, hI, hV, hcov2]
    rw [countKeys_not_mem _ _ hncss, countKeys_not_mem _ _ hnfonts,
      countKeys_not_mem _ _ hnvideos]
    rw [countKeys_nodup_mem _ _ (nodup_keys_eraseKey e.images e.cover.imageFilename hndi) himg]
    have hmf0 : mfS.countP (fun it => it.properties == coverImageProperties) = 0 := by
      apply List.countP_eq_zero.mpr
      intro it hit
      obtain ⟨n, hn, rfl⟩ := hmf it hit
      show ¬((("" : String) == coverImageProperties) = true)
      decide
    have hnav0 : List.countP (fun it => it.properties == coverImageProperties)
        ([⟨tocNavItemID, tocNavFilename, mediaTypeXhtml, tocNavItemProperties⟩,
          ⟨tocNcxItemID, tocNcxFilename, mediaTypeNcx, ""⟩] : List ManifestItem) = 0 := by
      decide
    rw [hmf0, hnav0]
  · have hT0 : (ImageFolderName ++ "/" ++ e.cover.imageFilename).data.get? 0 = some 'i' := by
      rw [append_get?_left (ImageFolderName ++ "/") _ 0 (by decide)]
      decide
    rw [hman]
    intro it hit
    simp only [List.mem_append, List.mem_map, List.mem_cons, List.not_mem_nil, or_false] at hit
    rcases hit with ⟨q, hq, rfl⟩ | ⟨q, hq, rfl⟩ | ⟨q, hq, rfl⟩ | ⟨q, hq, rfl⟩ | hmS | rfl | rfl
    · exact (str_ne_of_get 0
        (show ((CSSFolderName ++ "/") ++ q.1).data.get? 0 = some 'c' by
          rw [append_get?_left (CSSFolderName ++ "/") _ 0 (by decide)]; decide)
        hT0 (by decide) : (mediaItemOf e₂.cover.imageFilename mt CSSFolderName q).href ≠ _)
    · exact (str_ne_of_get 0
        (show ((FontFolderName ++ "/") ++ q.1).data.get? 0 = some 'f' by
          rw [append_get?_left (FontFolderName ++ "/") _ 0 (by decide)]; decide)
        hT0 (by decide) : (mediaItemOf e₂.cover.imageFilename mt FontFolderName q).href ≠ _)
    · rw [hI] at hq
      have hq1 : q.1 ≠ e.cover.imageFilename := of_decide_eq_true (List.mem_filter.mp hq).2
      exact (str_append_right_ne (ImageFolderName ++ "/") hq1 :
        (mediaItemOf e₂.cover.imageFilename mt ImageFolderName q).href ≠ _)
    · exact (str_ne_of_get 0
        (show ((VideoFolderName ++ "/") ++ q.1).data.get? 0 = some 'v' by
          rw [append_get?_left (VideoFolderName ++ "/") _ 0 (by decide)]; decide)
        hT0 (by decide) : (mediaItemOf e₂.cover.imageFilename mt VideoFolderName q).href ≠ _)
    · obtain ⟨n, hn, rfl⟩ := hmf it hmS
      exact str_ne_of_get 0
        (show ("xhtml/" ++ n).data.get? 0 = some 'x' by
          rw [append_get?_left "xhtml/" _ 0 (by decide)]; decide)
        hT0 (by decide)
    · exact str_ne_of_get 0
        (show (tocNavFilename).data.get? 0 = some 'n' by decide) hT0 (by decide)
    · exact str_ne_of_get 0
        (show (tocNcxFilename).data.get? 0 = some 't' by decide) hT0 (by decide)
  · intro hc2
    obtain ⟨_, hC, _, _, _, _⟩ := setCover_shape e p2 c2 e₂ hcov hc2 hnone hset
    have hT0 : (CSSFolderName ++ "/" ++ e.cover.cssFilename).data.get? 0 = some 'c' := by
      rw [append_get?_left (CSSFolderName ++ "/") _ 0 (by decide)]
      decide
    rw [hman]
    intro it hit
    simp only [List.mem_append, List.mem_map, List.mem_cons, List.not_mem_nil, or_false] at hit
    rcases hit with ⟨q, hq, rfl⟩ | ⟨q, hq, rfl⟩ | ⟨q, hq, rfl⟩ | ⟨q, hq, rfl⟩ | hmS | rfl | rfl
    · rw [hC] at hq
      have hq1 : q.1 ≠ e.cover.cssFilename := of_decide_eq_true (List.mem_filter.mp hq).2
      exact (str_append_right_ne (CSSFolderName ++ "/") hq1 :
        (mediaItemOf e₂.cover.imageFilename mt CSSFolderName q).href ≠ _)
    · exact (str_ne_of_get 0
        (show ((FontFolderName ++ "/") ++ q.1).data.get? 0 = some 'f' by
          rw [append_get?_left (FontFolderName ++ "/") _ 0 (by decide)]; decide)
        hT0 (by decide) : (mediaItemOf e₂.cover.imageFilename mt FontFolderName q).href ≠ _)
    · exact (str_ne_of_get 0
        (show ((ImageFolderName ++ "/") ++ q.1).data.get? 0 = some 'i' by
          rw [append_get?_left (ImageFolderName ++ "/") _ 0 (by decide)]; decide)
        hT0 (by decide) : (mediaItemOf e₂.cover.imageFilename mt ImageFolderName q).href ≠ _)
    · exact (str_ne_of_get 0
        (show ((VideoFolderName ++ "/") ++ q.1).data.get? 0 = some 'v' by
          rw [append_get?_left (VideoFolderName ++ "/") _ 0 (by decide)]; decide)
        hT0 (by decide) : (mediaItemOf e₂.cover.imageFilename mt VideoFolderName q).href ≠ _)
    · obtain ⟨n, hn, rfl⟩ := hmf it hmS
      exact str_ne_of_get 0
        (show ("xhtml/" ++ n).data.get? 0 = some 'x' by
          rw [append_get?_left "xhtml/" _ 0 (by decide)]; decide)
        hT0 (by decide)
    · exact str_ne_of_get 0
        (show (tocNavFilename).data.get? 0 = some 'n' by decide) hT0 (by decide)
    · exact str_ne_of_get 0
        (show (tocNcxFilename).data.get? 0 = some 't' by decide) hT0 (by decide)

/-- A concrete book with two registered images and a cover set on the first. -/
def coverDemoTwo : Epub :=
  (setCover ((addImage ((addImage (newEpub "t") true "a.png" "one.png").2)
    true "b.png" "two.png").2) "../images/one.png" "").getD (newEpub "")

/-- The same book after a second SetCover that switches to the other image. -/
def coverDemoSwap : Epub :=
  (setCover coverDemoTwo "../images/two.png" "style.css").getD (newEpub "")

theorem C8_second_cover_witness :
    coverFlagCount (writeTo coverDemoSwap (fun s => s)) = 1 ∧
    (∀ it ∈ (writeTo coverDemoSwap (fun s => s)).pkg.manifest,
      it.href ≠ ImageFolderName ++ "/" ++ coverDemoTwo.cover.imageFilename) ∧
    (("style.css" : String) ≠ "" →
      ∀ it ∈ (writeTo coverDemoSwap (fun s => s)).pkg.manifest,
        it.href ≠ CSSFolderName ++ "/" ++ coverDemoTwo.cover.cssFilename) ∧
    (∃ fn, allNames coverDemoSwap.sections =
      allNames (removeFirstSection coverDemoTwo.sections
        coverDemoTwo.cover.xhtmlFilename) ++ [fn]) :=
  C8_second_cover coverDemoTwo "../images/two.png" "style.css" coverDemoSwap (fun s => s)
    (by decide) (by decide) (by rfl) (by decide) (by decide) (by decide)
    (by decide) (by decide)

end GoEpub
